import Mathlib

/-!
# infrakit: GCE instance plugin, swarm leader detector and event broker

Shallow embedding of

* `pkg/example/instance/gce/plugin.go` (`parseProperties`, `Validate`, `DescribeInstances`),
* `pkg/leader/swarm/swarm.go` (`amISwarmLeader`),
* the event broker exercised by `pkg/broker/server/server_test.go` and
  `pkg/broker/client/sse_test.go`.

Go strings are embedded as `String`, Go `error` results as `Option`/`Except`, and calls into
external clients (`json.Unmarshal`, the GCloud API, the Docker API client) as explicit
function parameters.
-/

namespace Gce

/-! ## `pkg/example/instance/gce/plugin.go` -/

/-- Go `map[string]string`: a finite map given by its entries, no key occurring twice. -/
structure GoMap where
  entries : List (String × String)
  nodup : (entries.map Prod.fst).Nodup

/-- The empty map `map[string]string{}`. -/
def GoMap.empty : GoMap := ⟨[], List.nodup_nil⟩

/-- The comma-ok lookup `v, ok := m[k]`. -/
def GoMap.get? (m : GoMap) (k : String) : Option String := m.entries.lookup k

/-- The plain index expression `m[k]`: the zero value `""` when `k` is absent. -/
def GoMap.index (m : GoMap) (k : String) : String := (m.get? k).getD ""

/-- The struct `instanceProperties` (plugin.go lines 19-26); `DiskSizeMb` is an `int64` that is
only compared and assigned, never computed with. -/
structure instanceProperties where
  NamePrefix : String
  Description : String
  MachineType : String
  Network : String
  DiskSizeMb : Int
  Tags : List String
deriving DecidableEq, Repr

/-- The zero value `instanceProperties{}`. -/
def instanceProperties.zero : instanceProperties := ⟨"", "", "", "", 0, []⟩

/-- A `json.RawMessage`. -/
abbrev RawMessage := String

/-- The two defaulting statements of `parseProperties` (plugin.go lines 58-63). -/
def applyDefaults (p : instanceProperties) : instanceProperties :=
  let p := if p.NamePrefix = "" then { p with NamePrefix := "instance" } else p
  let p := if p.DiskSizeMb = 0 then { p with DiskSizeMb := 10 } else p
  p

/-- The function `parseProperties` (plugin.go lines 51-66). `Unmarshal raw` is the outcome of
`json.Unmarshal(raw, &p)` on a zero-valued `p`: an error, or the filled-in struct. -/
def parseProperties {E : Type} (Unmarshal : RawMessage → Except E instanceProperties)
    (properties : RawMessage) : Except E instanceProperties :=
  match Unmarshal properties with
  | .error err => .error err
  | .ok p => .ok (applyDefaults p)

/-- A Go `error` value returned by `Validate`: either the error of `json.Unmarshal`, passed
through, or the one built by `fmt.Errorf`. -/
inductive ValidateError (E : Type) where
  | unmarshal (err : E)
  | errorf (msg : String)
deriving DecidableEq, Repr

/-- The list `missingProperties` built by `Validate` (plugin.go lines 76-82). -/
def missingProperties (p : instanceProperties) : List String :=
  let missing : List String := []
  let missing := if p.MachineType = "" then missing ++ ["MachineType"] else missing
  let missing := if p.Network = "" then missing ++ ["Network"] else missing
  missing

/-- The method `plugin.Validate` (plugin.go lines 68-90); `none` is the `nil` error. -/
def Validate {E : Type} (Unmarshal : RawMessage → Except E instanceProperties)
    (req : RawMessage) : Option (ValidateError E) :=
  match parseProperties Unmarshal req with
  | .error err => some (.unmarshal err)
  | .ok instanceProperties =>
    let missing := missingProperties instanceProperties
    match missing.length with
    | 0 => none
    | _ => some (.errorf ("Missing: " ++ String.intercalate ", " missing))

/-- One `compute.MetadataItems`: a key and an optional value (`*string`). -/
structure MetadataItems where
  Key : String
  Value : Option String
deriving DecidableEq, Repr

/-- The `compute.Metadata` of an instance. -/
structure Metadata where
  Items : List MetadataItems
deriving DecidableEq, Repr

/-- The fields of `compute.Instance` that the plugin reads. The listing returned by the API
carries the metadata object of every instance; `DescribeInstances` dereferences it
unconditionally. -/
structure Instance where
  Name : String
  Metadata : Metadata
deriving DecidableEq, Repr

/-- The struct `instance.Description` as filled by `DescribeInstances`. -/
structure Description where
  ID : String
  Tags : GoMap

/-- The inner loop of `DescribeInstances` (plugin.go lines 141-145): `true` when some requested
tag differs from the instance's, which is when the source runs `continue scan`. -/
def hasMismatch (tags instTags : GoMap) : Bool :=
  tags.entries.any (fun kv => instTags.index kv.1 != kv.2)

/-- The loop labelled `scan` of `DescribeInstances` (plugin.go lines 137-151), with the slice
`result` as an accumulator. `MetaDataToTags` is `gcloud.MetaDataToTags`. -/
def scan (MetaDataToTags : List MetadataItems → GoMap) (tags : GoMap) :
    List Instance → List Description → List Description
  | [], result => result
  | inst :: rest, result =>
    let instTags := MetaDataToTags inst.Metadata.Items
    if hasMismatch tags instTags then
      scan MetaDataToTags tags rest result
    else
      scan MetaDataToTags tags rest (result ++ [⟨inst.Name, instTags⟩])

/-- The method `plugin.DescribeInstances` (plugin.go lines 125-156). `ListInstances` is the
outcome of `p.api.ListInstances()`. -/
def DescribeInstances {E : Type} (ListInstances : Except E (List Instance))
    (MetaDataToTags : List MetadataItems → GoMap) (tags : GoMap) :
    Except E (List Description) :=
  match ListInstances with
  | .error err => .error err
  | .ok instances => .ok (scan MetaDataToTags tags instances [])

/-- A conversion of metadata items to tags, used to evaluate `DescribeInstances` on concrete
listings: it keeps the first item of every key, an absent value reading as `""`. -/
def itemsToTags : List MetadataItems → GoMap
  | [] => GoMap.empty
  | item :: rest =>
    let m := itemsToTags rest
    ⟨(item.Key, item.Value.getD "") :: m.entries.filter (fun kv => kv.1 != item.Key), by
      have h := m.nodup
      rw [List.map_cons, List.nodup_cons]
      refine ⟨?_, ?_⟩
      · intro hmem
        rw [List.mem_map] at hmem
        obtain ⟨kv, hkv, hk⟩ := hmem
        have := (List.mem_filter.mp hkv).2
        simp [hk] at this
      · exact (List.nodup_iff_sublist.mpr (List.nodup_iff_sublist.mp h)).sublist
          ((List.filter_sublist _).map _)⟩

/-- The selection of instances as the description of `DescribeInstances` words it: every key
`k` with value `v` of `tags` is a tag of the instance with that same value `v`. -/
def hasEveryTag (tags instTags : GoMap) : Bool :=
  tags.entries.all (fun kv => instTags.get? kv.1 == some kv.2)

/-- The result of `DescribeInstances` as its description words it: the listed instances that
have every requested tag, in listing order. -/
def describeStated (MetaDataToTags : List MetadataItems → GoMap) (tags : GoMap)
    (instances : List Instance) : List Description :=
  instances.filterMap (fun inst =>
    if hasEveryTag tags (MetaDataToTags inst.Metadata.Items) then
      some ⟨inst.Name, MetaDataToTags inst.Metadata.Items⟩
    else none)

/-- An `Unmarshal` used to evaluate the plugin on concrete requests: it reads four fixed
requests and rejects every other one. -/
def sampleUnmarshal (raw : RawMessage) : Except String instanceProperties :=
  if raw = "empty" then .ok instanceProperties.zero
  else if raw = "machine" then .ok { instanceProperties.zero with MachineType := "n1-standard-1" }
  else if raw = "network" then .ok { instanceProperties.zero with Network := "default" }
  else if raw = "full" then
    .ok ⟨"worker", "a worker", "n1-standard-1", "default", 20, ["http"]⟩
  else .error "invalid character"

end Gce

namespace Swarm

/-! ## `pkg/leader/swarm/swarm.go` -/

/-- The struct `swarm.ManagerStatus`, of which the detector reads `Leader`. -/
structure ManagerStatus where
  Leader : Bool
deriving DecidableEq, Repr

/-- The struct `swarm.Node`; `ManagerStatus` is a pointer, `none` being `nil`. -/
structure Node where
  ID : String
  ManagerStatus : Option ManagerStatus
deriving DecidableEq, Repr

/-- The part `info.Swarm` of `types.Info`. -/
structure SwarmInfo where
  NodeID : String
deriving DecidableEq, Repr

/-- The struct `types.Info` returned by `client.Info`. -/
structure Info where
  Swarm : SwarmInfo
deriving DecidableEq, Repr

/-- The two methods of `docker.APIClientCloser` that `amISwarmLeader` calls, each given by its
outcome; the raw bytes returned by `NodeInspectWithRaw` are the second component. -/
structure APIClient (E : Type) where
  Info : Except E Info
  NodeInspectWithRaw : String → Except E (Node × List Nat)

/-- A call made on the client. -/
inductive Call where
  | info
  | nodeInspectWithRaw (nodeID : String)
deriving DecidableEq, Repr

/-- The function `amISwarmLeader` (swarm.go lines 19-38): the returned pair `(bool, error)`,
with `none` for the `nil` error, together with the calls made on the client, in order. -/
def amISwarmLeader {E : Type} (client : APIClient E) : (Bool × Option E) × List Call :=
  match client.Info with
  | .error err => ((false, some err), [Call.info])
  | .ok info =>
    let calls := [Call.info, Call.nodeInspectWithRaw info.Swarm.NodeID]
    match client.NodeInspectWithRaw info.Swarm.NodeID with
    | .error err => ((false, some err), calls)
    | .ok (node, _) =>
      match node.ManagerStatus with
      | none => ((false, none), calls)
      | some status => ((status.Leader, none), calls)

/-- A client of a node that is the swarm leader, used to evaluate `amISwarmLeader`. -/
def leaderClient : APIClient String :=
  { Info := .ok ⟨⟨"node-1"⟩⟩,
    NodeInspectWithRaw := fun nodeID =>
      if nodeID = "node-1" then .ok (⟨"node-1", some ⟨true⟩⟩, []) else .error "no such node" }

/-- A client whose daemon cannot be reached, used to evaluate `amISwarmLeader`. -/
def unreachableClient : APIClient String :=
  { Info := .error "cannot connect",
    NodeInspectWithRaw := fun _ => .error "cannot connect" }

end Swarm

namespace Broker

/-! ## The event broker (`pkg/broker/server`, `pkg/broker/client`)

Only the tests of the broker are among the sources; the server and the client are modelled
from the specification, as a sequential machine whose steps are the subscription requests,
the `Publish` calls, the writes of the per-subscriber drain tasks, the client disconnects and
`Stop`. -/

/-- The Go `strings.HasPrefix(s, p)`. -/
def hasPrefix (s p : String) : Bool := p.data.isPrefixOf s.data

/-- Modelled from the spec: the Topic Matcher `Matches(filter, topic)` of the broker server,
whose source is missing: "`Matches(F,T)` is true iff `T==F` or `T` starts with `F+"/"`". -/
def Matches (filter topic : String) : Bool :=
  topic == filter || hasPrefix topic (filter ++ "/")

/-- The segments of a string: the maximal runs of characters other than `/`; `cur` is the
segment being read, last character first. -/
def segmentsAux : List Char → List Char → List (List Char)
  | [], cur => if cur.isEmpty then [] else [cur.reverse]
  | c :: cs, cur =>
    if c == '/' then
      if cur.isEmpty then segmentsAux cs [] else cur.reverse :: segmentsAux cs []
    else segmentsAux cs (c :: cur)

/-- Modelled from the spec: a topic or a filter read as what the spec says it is, "a string
composed of segments separated by `/`", and written with a `/` before every segment. The
broker's own reading of these strings is missing from the sources. Under this one the filter
given as `/local/time` in `TestBrokerMultiSubscribersEarlyDisconnects` is the filter
`local/time`, which the test requires, and the empty filter is the one without segments. -/
def canonical (s : String) : String :=
  String.mk ((segmentsAux s.data []).flatMap (fun seg => '/' :: seg))

/-- Modelled from the spec: whether a subscriber with `filter` is sent the events published on
`topic`: the Topic Matcher on the segments of the two. -/
def covers (filter topic : String) : Bool :=
  Matches (canonical filter) (canonical topic)

/-- The serialized payload of an event: opaque bytes. -/
abbrev Bytes := List Nat

/-- Modelled from the spec: the Event created by one `Publish` call, a topic and the payload
bytes (the broker's event type is missing from the sources). -/
structure Event where
  topic : String
  payload : Bytes
deriving DecidableEq, Repr

/-- Modelled from the spec: one entry of the Subscriber Registry (missing from the sources):
the handle of the subscriber connection, its topic filter and its outbound event queue, oldest
event first. The bound on the queue is `Server.capacity`. -/
structure Entry where
  handle : Nat
  filter : String
  queue : List Event
deriving DecidableEq, Repr

/-- Modelled from the spec: how the server answered a connection: it switched it to streaming
mode, or it answered with the terminal not-found response. -/
inductive Response where
  | streaming
  | notFound
deriving DecidableEq, Repr

/-- Modelled from the spec: the state of the Broker Server (missing from the sources): the
optional route prefix and the capacity of every outbound queue, both fixed for the server's
lifetime, whether `Stop` was called, the next connection handle, the Subscriber Registry, the
answer given to every connection, and the events written to the connections' transports, in
the order of the writes. -/
structure Server where
  routePrefix : Option String
  capacity : Nat
  stopped : Bool
  nextHandle : Nat
  entries : List Entry
  responses : List (Nat × Response)
  written : List (Nat × Event)
deriving DecidableEq, Repr

/-- Modelled from the spec: `ListenAndServeOnSocket(path, optional routePrefix)` once the
transport is bound: a listening broker with an empty registry. The capacity of the outbound
queues, which the spec bounds without giving the bound, is a parameter. -/
def ListenAndServeOnSocket (capacity : Nat) (routePrefix : Option String) : Server :=
  { routePrefix := routePrefix, capacity := capacity, stopped := false, nextHandle := 0,
    entries := [], responses := [], written := [] }

/-- Modelled from the spec: `Register(filter) -> handle` of the Subscriber Registry: "creates a
new entry with an empty outbound queue". -/
def Register (s : Server) (filter : String) : Nat × Server :=
  (s.nextHandle,
   { s with nextHandle := s.nextHandle + 1, entries := s.entries ++ [⟨s.nextHandle, filter, []⟩] })

/-- Modelled from the spec: `Unregister(handle)` of the Subscriber Registry: "removes the
entry; idempotent". -/
def Unregister (s : Server) (h : Nat) : Server :=
  { s with entries := s.entries.filter (fun e => e.handle != h) }

/-- Modelled from the spec: `Snapshot()` of the Subscriber Registry. -/
def Snapshot (s : Server) : List Entry := s.entries

/-- The registry entry of handle `h`, if it is registered. -/
def Server.entry? (s : Server) (h : Nat) : Option Entry :=
  s.entries.find? (fun e => e.handle == h)

/-- A subscription request as the server sees it: the request path and the `topic` query
parameter, if there is one. -/
structure Request where
  path : String
  topic : Option String
deriving DecidableEq, Repr

/-- Modelled from the spec: the filter in its path form: "the remaining path segments after
the socket path (and after any configured route prefix) form the filter": what is left of the
request path after the route prefix. -/
def pathFilter (routePrefix : Option String) (path : String) : String :=
  String.mk (path.data.drop (routePrefix.getD "").length)

/-- Modelled from the spec: the filter of a subscription request (the server's request parsing
is missing): "If a `topic` query parameter is present it takes precedence as the filter;
otherwise the remaining path segments [...] form the filter." -/
def resolveFilter (routePrefix : Option String) (req : Request) : String :=
  match req.topic with
  | some topic => topic
  | none => pathFilter routePrefix req.path

/-- Modelled from the spec: whether a request path satisfies the configured route prefix: "If
`routePrefix` is configured and the connection's path does not begin with it, answer with a
terminal not-found response". -/
def routeAccepts (routePrefix : Option String) (path : String) : Bool :=
  match routePrefix with
  | none => true
  | some p => hasPrefix path p

/-- Modelled from the spec: the subscription handling of the Broker Server, per incoming
connection (missing from the sources). The connection takes the next handle. On a route
mismatch it is answered not-found, before any registry entry is created; otherwise the entry
is registered with the derived filter and the connection is switched to streaming mode. A
stopped broker has closed its listener and accepts no connection. -/
def handleSubscription (s : Server) (req : Request) : Server :=
  if s.stopped then s
  else if routeAccepts s.routePrefix req.path then
    let s' := (Register s (resolveFilter s.routePrefix req)).2
    { s' with responses := s'.responses ++ [(s.nextHandle, Response.streaming)] }
  else
    { s with nextHandle := s.nextHandle + 1,
             responses := s.responses ++ [(s.nextHandle, Response.notFound)] }

/-- Modelled from the spec: the errors of `Publish`: the value cannot be serialized, or the
broker is stopped ("`Publish` must fail rather than silently drop"). -/
inductive PublishError where
  | encoding
  | stopped
deriving DecidableEq, Repr

/-- Modelled from the spec: what `Publish` does to one entry whose filter covers the topic
(missing from the sources). "Must not block on a slow subscriber: each entry's queue has a
bounded capacity"; delivery is "fire-and-forget", "at-most-once per live subscriber": the
event is enqueued when the queue has room, and otherwise it is not enqueued for this entry
and `Publish` goes on. -/
def Entry.offer (capacity : Nat) (e : Entry) (event : Event) : Entry :=
  if e.queue.length < capacity then { e with queue := e.queue ++ [event] } else e

/-- Modelled from the spec: `Publish(topic, value)` of the Broker Server (missing from the
sources): "serializes `value` once, then for every snapshot entry whose filter matches
`topic`, enqueues the serialized event onto that entry's outbound queue", within the queue's
capacity; on an encoding error "no events are enqueued for that call". `encode` is the
codec's serializer. -/
def Publish {V : Type} (encode : V → Option Bytes) (s : Server) (topic : String) (value : V) :
    Except PublishError Server :=
  if s.stopped then .error .stopped
  else
    match encode value with
    | none => .error .encoding
    | some payload =>
      .ok { s with entries := s.entries.map (fun e =>
              if covers e.filter topic then e.offer s.capacity ⟨topic, payload⟩ else e) }

/-- Modelled from the spec: one write of the drain task of entry `h` (missing from the
sources): it takes the oldest queued event and writes it to the subscriber's transport; "if a
subscriber's underlying connection write fails (e.g., client disconnected), the entry is
unregistered" and its queue discarded. With an empty queue the task stays suspended. -/
def Drain (s : Server) (h : Nat) (writeOk : Bool) : Server :=
  match s.entry? h with
  | none => s
  | some e =>
    match e.queue with
    | [] => s
    | event :: rest =>
      if writeOk then
        { s with entries := s.entries.map (fun e' =>
                   if e'.handle == h then { e' with queue := rest } else e'),
                 written := s.written ++ [(h, event)] }
      else Unregister s h

/-- Modelled from the spec: `Stop()` of the Broker Server: "transitions to `Stopped`, closes
the transport listener, and closes every registered subscriber connection". -/
def Stop (s : Server) : Server :=
  { s with stopped := true, entries := [] }

/-- A step of the broker. -/
inductive Op (V : Type) where
  | subscribe (req : Request)
  | publish (topic : String) (value : V)
  | drain (h : Nat) (writeOk : Bool)
  | disconnect (h : Nat)
  | stop

/-- The broker after one step; a failing `Publish` leaves it as it was. -/
def step {V : Type} (encode : V → Option Bytes) (s : Server) : Op V → Server
  | .subscribe req => handleSubscription s req
  | .publish topic value =>
    match Publish encode s topic value with
    | .ok s' => s'
    | .error _ => s
  | .drain h writeOk => Drain s h writeOk
  | .disconnect h => Unregister s h
  | .stop => Stop s

/-- The broker after a sequence of steps. -/
def run {V : Type} (encode : V → Option Bytes) (s : Server) (ops : List (Op V)) : Server :=
  ops.foldl (step encode) s

/-- Modelled from the spec: the `messageStream` of the Broker Client on connection `h`
(the client is missing from the sources): the events written to its transport, "in the same
relative order the server enqueued them for this subscriber". -/
def messageStream (s : Server) (h : Nat) : List Event :=
  s.written.filterMap (fun w => if w.1 == h then some w.2 else none)

/-- Modelled from the spec: the `errorStream` of the Broker Client on connection `h`: it
receives the server's not-found response for a mismatched route, and nothing else. -/
def errorStream (s : Server) (h : Nat) : List Response :=
  s.responses.filterMap (fun r =>
    if r.1 == h && r.2 == Response.notFound then some r.2 else none)

/-- Modelled from the spec: the decode operation of a Decodable Message, applied to every
message of a stream; `decode` is the codec's deserializer. -/
def decodeAll {V : Type} (decode : Bytes → Option V) (msgs : List Event) : List (Option V) :=
  msgs.map (fun m => decode m.payload)

/-- Whether a step is a `Publish` call that offers an event to the subscribers with `filter`:
its value serializes and the filter covers its topic. -/
def offers {V : Type} (encode : V → Option Bytes) (filter : String) : Op V → Bool
  | .publish topic value => (encode value).isSome && covers filter topic
  | _ => false

/-- The events that the `Publish` calls of `ops` offer to a filter, in the order of the
calls. -/
def publishedTo {V : Type} (encode : V → Option Bytes) (filter : String) :
    List (Op V) → List Event
  | [] => []
  | .publish topic value :: ops =>
    match encode value with
    | some payload =>
      if covers filter topic then ⟨topic, payload⟩ :: publishedTo encode filter ops
      else publishedTo encode filter ops
    | none => publishedTo encode filter ops
  | _ :: ops => publishedTo encode filter ops

/-- The values of the `Publish` calls counted by `publishedTo`. -/
def publishedValues {V : Type} (encode : V → Option Bytes) (filter : String) :
    List (Op V) → List V
  | [] => []
  | .publish topic value :: ops =>
    if (encode value).isSome && covers filter topic then
      value :: publishedValues encode filter ops
    else publishedValues encode filter ops
  | _ :: ops => publishedValues encode filter ops

/-- No step of `ops` ends the subscription of handle `h`: no `Stop`, no disconnect of `h`, no
failed write to `h`. -/
def keepsAlive {V : Type} (h : Nat) : List (Op V) → Bool
  | [] => true
  | .stop :: _ => false
  | .disconnect h' :: ops => h' != h && keepsAlive h ops
  | .drain h' writeOk :: ops => (h' != h || writeOk) && keepsAlive h ops
  | _ :: ops => keepsAlive h ops

/-- The length of the queue of subscriber `h` after a step that finds it with `n` events and
with room for one more: a `Publish` that offers it an event adds one, a successful write of
its drain task takes one. -/
def queueAfter {V : Type} (encode : V → Option Bytes) (filter : String) (h : Nat) (n : Nat)
    (op : Op V) : Nat :=
  match op with
  | .publish _ _ => if offers encode filter op then n + 1 else n
  | .drain h' writeOk => if h' == h && writeOk then n - 1 else n
  | _ => n

/-- The drain task of subscriber `h` keeps up with `ops`: starting with `n` queued events,
its queue has room whenever a `Publish` call of `ops` offers it an event. -/
def keepsUp {V : Type} (capacity : Nat) (encode : V → Option Bytes) (filter : String)
    (h : Nat) : Nat → List (Op V) → Bool
  | _, [] => true
  | n, op :: ops =>
    (!offers encode filter op || decide (n < capacity)) &&
      keepsUp capacity encode filter h (queueAfter encode filter h n op) ops

/-- A codec used to evaluate the broker on concrete values: a natural number `n` is
serialized as `n` zero bytes. -/
def unaryEncode (n : Nat) : Option Bytes := some (List.replicate n 0)

/-- The deserializer of the codec `unaryEncode`. -/
def unaryDecode (b : Bytes) : Option Nat := some b.length

/-- The handles in use are below the next handle: those of the registry entries, of the
answered connections and of the written events. It holds of every broker reached from
`ListenAndServeOnSocket`. -/
def Server.WF (s : Server) : Prop :=
  (∀ e ∈ s.entries, e.handle < s.nextHandle) ∧
  (∀ r ∈ s.responses, r.1 < s.nextHandle) ∧
  (∀ w ∈ s.written, w.1 < s.nextHandle)

/-- The length of the queue of subscriber `h` after the steps `ops`, when it starts with `n`
events and its drain task keeps up. -/
def queueLength {V : Type} (encode : V → Option Bytes) (filter : String) (h : Nat) (n : Nat)
    (ops : List (Op V)) : Nat :=
  ops.foldl (queueAfter encode filter h) n

/-- The steps of `TestBrokerMultiSubscribersEarlyDisconnects` as its subscriber of handle `h`
sees them: `n` ticks published on `local/time/tick`, counting up from `first`, each one
written to the subscriber before the next is published. -/
def tickOps (h : Nat) : Nat → Nat → List (Op Nat)
  | _, 0 => []
  | first, n + 1 =>
    Op.publish "local/time/tick" first :: Op.drain h true :: tickOps h (first + 1) n

end Broker

/-! # Theorems -/

namespace Gce

theorem lookup_eq_some_iff_mem (l : List (String × String)) (hnd : (l.map Prod.fst).Nodup)
    (k v : String) : l.lookup k = some v ↔ (k, v) ∈ l := by
  induction l with
  | nil => simp
  | cons kv rest ih =>
    obtain ⟨k', v'⟩ := kv
    rw [List.map_cons, List.nodup_cons] at hnd
    by_cases hk : k = k'
    · subst hk
      have hnot : ∀ w, (k, w) ∉ rest := fun w hw => hnd.1 (List.mem_map.mpr ⟨(k, w), hw, rfl⟩)
      simp [List.lookup, hnot]
      exact eq_comm
    · have hbeq : (k == k') = false := by simpa using hk
      simp [List.lookup, hbeq, ih hnd.2, hk]

theorem hasMismatch_eq_false_iff (tags instTags : GoMap) :
    hasMismatch tags instTags = false ↔
      ∀ k v, tags.get? k = some v → instTags.index k = v := by
  unfold hasMismatch GoMap.get?
  rw [Bool.eq_false_iff]
  simp only [ne_eq, List.any_eq_true, not_exists, not_and, bne_iff_ne, Decidable.not_not]
  constructor
  · intro h k v hkv
    exact h (k, v) ((lookup_eq_some_iff_mem _ tags.nodup k v).mp hkv)
  · intro h kv hkv
    exact h kv.1 kv.2 ((lookup_eq_some_iff_mem _ tags.nodup kv.1 kv.2).mpr hkv)

theorem index_eq_iff (m : GoMap) (k v : String) :
    m.index k = v ↔ (m.get? k = some v ∨ (v = "" ∧ m.get? k = none)) := by
  unfold GoMap.index
  cases h : m.get? k with
  | none => simp [eq_comm]
  | some w => simp

theorem scan_eq (conv : List MetadataItems → GoMap) (tags : GoMap) (instances : List Instance)
    (result : List Description) :
    scan conv tags instances result = result ++ instances.filterMap (fun inst =>
      if hasMismatch tags (conv inst.Metadata.Items) then none
      else some ⟨inst.Name, conv inst.Metadata.Items⟩) := by
  induction instances generalizing result with
  | nil => simp [scan]
  | cons inst rest ih =>
    simp only [scan]
    split
    · rename_i h; rw [ih]; simp [List.filterMap_cons, h]
    · rename_i h; rw [ih]; simp [List.filterMap_cons, h]


theorem applyDefaults_idem (p : instanceProperties) :
    applyDefaults (applyDefaults p) = applyDefaults p := by
  unfold applyDefaults
  by_cases h1 : p.NamePrefix = "" <;> by_cases h2 : p.DiskSizeMb = 0 <;> simp [h1, h2]

/-- C10: `parseProperties` returns the unmarshalled properties with `NamePrefix` defaulted to
`"instance"` and `DiskSizeMb` to `10`, the other fields untouched; the result has a non-empty
`NamePrefix` and a non-zero `DiskSizeMb`, defaulting it again changes nothing, and an
unmarshalling error is returned as it is, with no properties. -/
theorem parseProperties_defaulting {E : Type}
    (Unmarshal : RawMessage → Except E instanceProperties) (raw : RawMessage) :
    (∀ p, Unmarshal raw = .ok p →
      ∃ q, parseProperties Unmarshal raw = .ok q ∧ q = applyDefaults p ∧
        q.NamePrefix = (if p.NamePrefix = "" then "instance" else p.NamePrefix) ∧
        q.DiskSizeMb = (if p.DiskSizeMb = 0 then 10 else p.DiskSizeMb) ∧
        q.Description = p.Description ∧ q.MachineType = p.MachineType ∧
        q.Network = p.Network ∧ q.Tags = p.Tags ∧
        q.NamePrefix ≠ "" ∧ q.DiskSizeMb ≠ 0 ∧
        applyDefaults (applyDefaults p) = applyDefaults p) ∧
    (∀ err, Unmarshal raw = .error err → parseProperties Unmarshal raw = .error err) := by
  constructor
  · intro p hp
    refine ⟨applyDefaults p, by simp [parseProperties, hp], rfl, ?_⟩
    refine ⟨?_, ?_, ?_, ?_, ?_, ?_, ?_, ?_, applyDefaults_idem p⟩ <;>
      (unfold applyDefaults
       by_cases h1 : p.NamePrefix = "" <;> by_cases h2 : p.DiskSizeMb = 0 <;> simp [h1, h2])
  · intro err herr
    simp [parseProperties, herr]

/-- C10 at a request that sets only `MachineType`: both defaults are applied. -/
theorem parseProperties_defaulting_witness :
    ∃ q, parseProperties sampleUnmarshal "machine" = .ok q ∧
      q = applyDefaults { instanceProperties.zero with MachineType := "n1-standard-1" } ∧
      q.NamePrefix = "instance" ∧ q.DiskSizeMb = 10 := by
  obtain ⟨q, h1, h2, h3, h4, _⟩ :=
    (parseProperties_defaulting sampleUnmarshal "machine").1
      { instanceProperties.zero with MachineType := "n1-standard-1" } rfl
  exact ⟨q, h1, h2, by rw [h3]; decide, by rw [h4]; decide⟩


theorem missingProperties_applyDefaults (p : instanceProperties) :
    missingProperties (applyDefaults p) = missingProperties p := by
  unfold missingProperties applyDefaults
  by_cases h1 : p.NamePrefix = "" <;> by_cases h2 : p.DiskSizeMb = 0 <;> simp [h1, h2]

theorem Validate_ok {E : Type} (Unmarshal : RawMessage → Except E instanceProperties)
    (req : RawMessage) (p : instanceProperties) (hp : Unmarshal req = .ok p) :
    Validate Unmarshal req =
      if p.MachineType = "" then
        if p.Network = "" then some (.errorf "Missing: MachineType, Network")
        else some (.errorf "Missing: MachineType")
      else if p.Network = "" then some (.errorf "Missing: Network")
      else none := by
  unfold Validate parseProperties
  simp only [hp, missingProperties_applyDefaults]
  unfold missingProperties
  by_cases h1 : p.MachineType = "" <;> by_cases h2 : p.Network = "" <;> simp [h1, h2] <;> decide

/-- C9: for a request that parses, `Validate` returns `nil` exactly when `MachineType` and
`Network` are both non-empty, and otherwise the error `"Missing: "` followed by the names of
the empty fields among `MachineType`, `Network`, in that order, joined by `", "`; the outcome
depends on these two fields only, so the defaults of `NamePrefix` and `DiskSizeMb` never
affect it; for a request that does not parse it returns the parse error. -/
theorem Validate_spec {E : Type} (Unmarshal : RawMessage → Except E instanceProperties)
    (req : RawMessage) :
    (∀ p, Unmarshal req = .ok p →
      (Validate Unmarshal req = none ↔ (p.MachineType ≠ "" ∧ p.Network ≠ "")) ∧
      (¬ (p.MachineType ≠ "" ∧ p.Network ≠ "") →
        Validate Unmarshal req = some (.errorf ("Missing: " ++ String.intercalate ", "
          ([("MachineType", p.MachineType), ("Network", p.Network)].filterMap
            (fun field => if field.2 = "" then some field.1 else none))))) ∧
      (p.MachineType = "" → p.Network = "" →
        Validate Unmarshal req = some (.errorf "Missing: MachineType, Network")) ∧
      (∀ (Unmarshal' : RawMessage → Except E instanceProperties) (req' : RawMessage)
          (p' : instanceProperties), Unmarshal' req' = .ok p' →
          p'.MachineType = p.MachineType → p'.Network = p.Network →
          Validate Unmarshal' req' = Validate Unmarshal req)) ∧
    (∀ err, Unmarshal req = .error err →
      Validate Unmarshal req = some (.unmarshal err)) := by
  constructor
  · intro p hp
    have hv := Validate_ok Unmarshal req p hp
    refine ⟨?_, ?_, ?_, ?_⟩
    · rw [hv]
      by_cases h1 : p.MachineType = "" <;> by_cases h2 : p.Network = "" <;> simp [h1, h2]
    · intro _
      rw [hv]
      by_cases h1 : p.MachineType = "" <;> by_cases h2 : p.Network = "" <;>
        simp_all <;> decide
    · intro h1 h2
      rw [hv]
      simp [h1, h2]
    · intro Unmarshal' req' p' hp' hm hn
      rw [hv, Validate_ok Unmarshal' req' p' hp', hm, hn]
  · intro err herr
    simp [Validate, parseProperties, herr]

/-- C9 at three requests: one without `MachineType`, a complete one, one that does not
parse. -/
theorem Validate_spec_witness :
    Validate sampleUnmarshal "network" = some (.errorf "Missing: MachineType") ∧
    Validate sampleUnmarshal "full" = none ∧
    Validate sampleUnmarshal "" = some (.unmarshal "invalid character") := by
  refine ⟨?_, ?_, ?_⟩
  · exact (((Validate_spec sampleUnmarshal "network").1
      { instanceProperties.zero with Network := "default" } rfl).2.1 (by decide)).trans
        (by decide)
  · exact ((Validate_spec sampleUnmarshal "full").1
      ⟨"worker", "a worker", "n1-standard-1", "default", 20, ["http"]⟩ rfl).1.mpr (by decide)
  · exact (Validate_spec sampleUnmarshal "").2 "invalid character" rfl


/-- C7, as stated, fails: asked for the tag `env` with the empty value, `DescribeInstances`
returns the instance `vm-1`, which has no tag `env`, while the stated selection returns
nothing. -/
theorem DescribeInstances_stated_fails :
    (itemsToTags []).get? "env" = none ∧
    describeStated itemsToTags ⟨[("env", "")], by decide⟩ [⟨"vm-1", ⟨[]⟩⟩] = [] ∧
    DescribeInstances (E := String) (.ok [⟨"vm-1", ⟨[]⟩⟩]) itemsToTags
        ⟨[("env", "")], by decide⟩ = .ok [⟨"vm-1", itemsToTags []⟩] ∧
    DescribeInstances (E := String) (.ok [⟨"vm-1", ⟨[]⟩⟩]) itemsToTags
        ⟨[("env", "")], by decide⟩ ≠
      .ok (describeStated itemsToTags ⟨[("env", "")], by decide⟩ [⟨"vm-1", ⟨[]⟩⟩]) := by
  refine ⟨rfl, rfl, rfl, ?_⟩
  intro h
  have hlen := congrArg (fun r => match r with
    | Except.ok l => l.length
    | Except.error _ => 0) h
  revert hlen
  decide

/-- C7, amended: `DescribeInstances` returns, in listing order and each as `ID` = instance name
and `Tags` = its metadata converted to tags, exactly the listed instances for which every key
`k` with value `v` of `tags` satisfies `instTags[k] == v`, an absent key reading as `""`: the
instance has the tag `k` with value `v`, or `v` is empty and the instance has no tag `k`. With
no requested tag every listed instance is returned; a listing error is returned with no
result. -/
theorem DescribeInstances_spec {E : Type} (listing : Except E (List Instance))
    (MetaDataToTags : List MetadataItems → GoMap) (tags : GoMap) :
    (∀ instances, listing = .ok instances →
      DescribeInstances listing MetaDataToTags tags =
        .ok (instances.filterMap (fun inst =>
          if hasMismatch tags (MetaDataToTags inst.Metadata.Items) then none
          else some ⟨inst.Name, MetaDataToTags inst.Metadata.Items⟩))) ∧
    (∀ instTags : GoMap, hasMismatch tags instTags = false ↔
      ∀ k v, tags.get? k = some v →
        (instTags.get? k = some v ∨ (v = "" ∧ instTags.get? k = none))) ∧
    (∀ instances, listing = .ok instances → tags.entries = [] →
      DescribeInstances listing MetaDataToTags tags =
        .ok (instances.map (fun inst => ⟨inst.Name, MetaDataToTags inst.Metadata.Items⟩))) ∧
    (∀ err, listing = .error err →
      DescribeInstances listing MetaDataToTags tags = .error err) := by
  refine ⟨?_, ?_, ?_, ?_⟩
  · intro instances hl
    simp [DescribeInstances, hl, scan_eq]
  · intro instTags
    rw [hasMismatch_eq_false_iff]
    constructor
    · intro h k v hkv
      exact (index_eq_iff instTags k v).mp (h k v hkv)
    · intro h k v hkv
      exact (index_eq_iff instTags k v).mpr (h k v hkv)
  · intro instances hl he
    simp only [DescribeInstances, hl, scan_eq, List.nil_append]
    congr 1
    have hm : ∀ m, hasMismatch tags m = false := by
      intro m; simp [hasMismatch, he]
    clear hl
    induction instances with
    | nil => rfl
    | cons inst rest ih =>
      rw [List.filterMap_cons, ih]
      simp [hm]
  · intro err hl
    simp [DescribeInstances, hl]

/-- C7, amended, at a listing of three instances asked for `env=prod`, and at a failing
listing. -/
theorem DescribeInstances_spec_witness :
    DescribeInstances (E := String)
        (.ok [⟨"vm-1", ⟨[⟨"env", some "prod"⟩]⟩⟩, ⟨"vm-2", ⟨[⟨"env", some "test"⟩]⟩⟩,
              ⟨"vm-3", ⟨[⟨"env", some "prod"⟩, ⟨"tier", some "web"⟩]⟩⟩])
        itemsToTags ⟨[("env", "prod")], by decide⟩ =
      .ok [⟨"vm-1", itemsToTags [⟨"env", some "prod"⟩]⟩,
           ⟨"vm-3", itemsToTags [⟨"env", some "prod"⟩, ⟨"tier", some "web"⟩]⟩] ∧
    DescribeInstances (.error "quota exceeded") itemsToTags GoMap.empty =
      .error "quota exceeded" :=
  ⟨((DescribeInstances_spec _ itemsToTags ⟨[("env", "prod")], by decide⟩).1 _ rfl).trans rfl,
   (DescribeInstances_spec (.error "quota exceeded") itemsToTags GoMap.empty).2.2.2
      "quota exceeded" rfl⟩

end Gce

namespace Swarm

/-- C8: `amISwarmLeader` returns `(true, nil)` exactly when `Info` succeeds, the inspection of
the node that `Info` reports succeeds and that node has a `ManagerStatus` with `Leader` set; it
returns `(false, nil)` when the `ManagerStatus` is absent or `Leader` is false; when a call
fails it returns `(false, err)` with that call's error; after a failed `Info` no node is
inspected; `true` is never returned together with an error. -/
theorem amISwarmLeader_spec {E : Type} (client : APIClient E) :
    ((amISwarmLeader client).1 = (true, none) ↔
      ∃ info node raw status, client.Info = .ok info ∧
        client.NodeInspectWithRaw info.Swarm.NodeID = .ok (node, raw) ∧
        node.ManagerStatus = some status ∧ status.Leader = true) ∧
    (∀ info node raw, client.Info = .ok info →
      client.NodeInspectWithRaw info.Swarm.NodeID = .ok (node, raw) →
      (node.ManagerStatus = none ∨ ∃ status, node.ManagerStatus = some status ∧
        status.Leader = false) →
      (amISwarmLeader client).1 = (false, none)) ∧
    (∀ err, client.Info = .error err →
      amISwarmLeader client = ((false, some err), [Call.info])) ∧
    (∀ info err, client.Info = .ok info →
      client.NodeInspectWithRaw info.Swarm.NodeID = .error err →
      amISwarmLeader client =
        ((false, some err), [Call.info, Call.nodeInspectWithRaw info.Swarm.NodeID])) ∧
    (∀ err, (amISwarmLeader client).1 ≠ (true, some err)) := by
  refine ⟨?_, ?_, ?_, ?_, ?_⟩
  · unfold amISwarmLeader
    cases hi : client.Info with
    | error err => simp
    | ok info =>
      cases hn : client.NodeInspectWithRaw info.Swarm.NodeID with
      | error err => simp [hn]
      | ok pair =>
        obtain ⟨node, raw⟩ := pair
        cases hm : node.ManagerStatus with
        | none => simp [hn, hm]
        | some status => simp [hn, hm]
  · intro info node raw hi hn hm
    unfold amISwarmLeader
    rcases hm with hm | ⟨status, hm, hl⟩
    · simp [hi, hn, hm]
    · simp [hi, hn, hm, hl]
  · intro err hi
    simp [amISwarmLeader, hi]
  · intro info err hi hn
    simp [amISwarmLeader, hi, hn]
  · intro err
    unfold amISwarmLeader
    cases hi : client.Info with
    | error err => simp
    | ok info =>
      cases hn : client.NodeInspectWithRaw info.Swarm.NodeID with
      | error err => simp [hn]
      | ok pair =>
        obtain ⟨node, raw⟩ := pair
        cases hm : node.ManagerStatus with
        | none => simp [hn, hm]
        | some status => simp [hn, hm]

/-- C8 at a client of the leader node and at a client whose `Info` call fails. -/
theorem amISwarmLeader_spec_witness :
    (amISwarmLeader leaderClient).1 = (true, none) ∧
    amISwarmLeader unreachableClient = ((false, some "cannot connect"), [Call.info]) :=
  ⟨(amISwarmLeader_spec leaderClient).1.mpr
      ⟨⟨⟨"node-1"⟩⟩, ⟨"node-1", some ⟨true⟩⟩, [], ⟨true⟩, rfl, rfl, rfl, rfl⟩,
    (amISwarmLeader_spec unreachableClient).2.2.1 "cannot connect" rfl⟩
end Swarm

namespace Broker

theorem hasPrefix_iff (s p : String) :
    hasPrefix s p = true ↔ ∃ rest : String, s = p ++ rest := by
  unfold hasPrefix
  rw [List.isPrefixOf_iff_prefix]
  constructor
  · rintro ⟨t, ht⟩
    exact ⟨⟨t⟩, String.ext (by simp [String.data_append, ht])⟩
  · rintro ⟨rest, hr⟩
    exact ⟨rest.data, by rw [hr, String.data_append]⟩

theorem Matches_iff (F T : String) :
    Matches F T = true ↔ (T = F ∨ ∃ rest : String, T = F ++ "/" ++ rest) := by
  unfold Matches
  simp only [Bool.or_eq_true, beq_iff_eq, hasPrefix_iff]

/-- C1: `Matches(F, T)` is true if and only if `T` equals `F` or `T` starts with `F` followed
by `/`; the filter `local/tim` does not match the topic `local/time/tick`, and the filters
`local` and `local/time` both match `local/time/now`. -/
theorem Matches_spec :
    (∀ F T : String, Matches F T = true ↔
      (T = F ∨ ∃ rest : String, T = F ++ "/" ++ rest)) ∧
    Matches "local/tim" "local/time/tick" = false ∧
    Matches "local" "local/time/now" = true ∧
    Matches "local/time" "local/time/now" = true :=
  ⟨Matches_iff, by decide, by decide, by decide⟩

/-- The empty filter covers every topic: a topic without segments is the empty filter itself,
and any other topic, written with a `/` before every segment, starts with `/`. -/
theorem covers_empty (T : String) : covers "" T = true := by
  have hc : canonical "" = "" := by decide
  unfold covers
  rw [hc]
  unfold canonical Matches hasPrefix
  cases segmentsAux T.data [] with
  | nil => decide
  | cons seg segs =>
    have : ("" ++ "/").data = ['/'] := by decide
    simp [this, List.flatMap_cons]

/-- The filters and topics of the broker's tests: `local` and `local/time` cover
`local/time/now` (`TestListenAndServeOnSocket`); `local` and the query-form filter
`/local/time` cover `local/time/tick` (`TestBrokerMultiSubscribersEarlyDisconnects`); `local`
and `local/instance1` cover `local/instance1` and `local` does not cover `remote/instance1`
(`TestBrokerMultiSubscriberCustomObject`). -/
theorem covers_in_tests :
    covers "local" "local/time/now" = true ∧ covers "local/time" "local/time/now" = true ∧
    covers "local" "local/time/tick" = true ∧ covers "/local/time" "local/time/tick" = true ∧
    covers "local" "local/instance1" = true ∧
    covers "local/instance1" "local/instance1" = true ∧
    covers "local" "remote/instance1" = false ∧
    covers "local/tim" "local/time/tick" = false := by
  decide

section machine

variable {V : Type} (encode : V → Option Bytes)

theorem run_nil (s : Server) : run encode s [] = s := rfl

theorem run_cons (s : Server) (op : Op V) (ops : List (Op V)) :
    run encode s (op :: ops) = run encode (step encode s op) ops := rfl

/-! ### The steps, case by case -/

theorem Drain_none (s : Server) (h : Nat) (writeOk : Bool) (he : s.entry? h = none) :
    Drain s h writeOk = s := by
  simp [Drain, he]

theorem Drain_empty (s : Server) (h : Nat) (writeOk : Bool) (e : Entry)
    (he : s.entry? h = some e) (hq : e.queue = []) : Drain s h writeOk = s := by
  simp [Drain, he, hq]

theorem Drain_ok (s : Server) (h : Nat) (e : Entry) (ev : Event) (rest : List Event)
    (he : s.entry? h = some e) (hq : e.queue = ev :: rest) :
    Drain s h true =
      { s with entries := s.entries.map (fun e' =>
                 if e'.handle == h then { e' with queue := rest } else e'),
               written := s.written ++ [(h, ev)] } := by
  simp [Drain, he, hq]

theorem Drain_fail (s : Server) (h : Nat) (e : Entry) (ev : Event) (rest : List Event)
    (he : s.entry? h = some e) (hq : e.queue = ev :: rest) :
    Drain s h false = Unregister s h := by
  simp [Drain, he, hq]

theorem Publish_ok (s : Server) (topic : String) (value : V) (payload : Bytes)
    (hlive : s.stopped = false) (hv : encode value = some payload) :
    Publish encode s topic value =
      .ok { s with entries := s.entries.map (fun e =>
          if covers e.filter topic then e.offer s.capacity ⟨topic, payload⟩ else e) } := by
  simp [Publish, hlive, hv]

theorem step_publish_ok (s : Server) (topic : String) (value : V) (payload : Bytes)
    (hlive : s.stopped = false) (hv : encode value = some payload) :
    step encode s (.publish topic value) =
      { s with entries := s.entries.map (fun e =>
          if covers e.filter topic then e.offer s.capacity ⟨topic, payload⟩ else e) } := by
  simp [step, Publish_ok encode s topic value payload hlive hv]

theorem step_publish_fail (s : Server) (topic : String) (value : V)
    (hv : encode value = none) : step encode s (.publish topic value) = s := by
  unfold step Publish
  cases s.stopped <;> simp [hv]

theorem step_publish_stopped (s : Server) (topic : String) (value : V)
    (hs : s.stopped = true) : step encode s (.publish topic value) = s := by
  simp [step, Publish, hs]

theorem handleSubscription_accept (s : Server) (req : Request) (hlive : s.stopped = false)
    (ha : routeAccepts s.routePrefix req.path = true) :
    handleSubscription s req =
      { s with nextHandle := s.nextHandle + 1,
               entries := s.entries ++ [⟨s.nextHandle, resolveFilter s.routePrefix req, []⟩],
               responses := s.responses ++ [(s.nextHandle, Response.streaming)] } := by
  simp [handleSubscription, hlive, ha, Register]

theorem handleSubscription_reject (s : Server) (req : Request) (hlive : s.stopped = false)
    (ha : routeAccepts s.routePrefix req.path = false) :
    handleSubscription s req =
      { s with nextHandle := s.nextHandle + 1,
               responses := s.responses ++ [(s.nextHandle, Response.notFound)] } := by
  simp [handleSubscription, hlive, ha]

theorem handleSubscription_stopped (s : Server) (req : Request) (hs : s.stopped = true) :
    handleSubscription s req = s := by
  simp [handleSubscription, hs]

theorem offer_handle (capacity : Nat) (e : Entry) (ev : Event) :
    (e.offer capacity ev).handle = e.handle := by
  unfold Entry.offer; split <;> rfl

theorem offer_filter (capacity : Nat) (e : Entry) (ev : Event) :
    (e.offer capacity ev).filter = e.filter := by
  unfold Entry.offer; split <;> rfl

theorem offer_room (capacity : Nat) (e : Entry) (ev : Event)
    (hroom : e.queue.length < capacity) : (e.offer capacity ev).queue = e.queue ++ [ev] := by
  simp [Entry.offer, hroom]

theorem publish_map_handle (capacity : Nat) (topic : String) (ev : Event) (x : Entry) :
    (if covers x.filter topic = true then x.offer capacity ev else x).handle = x.handle := by
  split
  · exact offer_handle capacity x ev
  · rfl

theorem drain_map_handle (h : Nat) (rest : List Event) (x : Entry) :
    (if (x.handle == h) = true then { x with queue := rest } else x).handle = x.handle := by
  split <;> rfl

/-! ### Registry lookups -/

theorem find?_handle_map (l : List Entry) (f : Entry → Entry)
    (hf : ∀ e, (f e).handle = e.handle) (h : Nat) :
    (l.map f).find? (fun e => e.handle == h) = (l.find? (fun e => e.handle == h)).map f := by
  induction l with
  | nil => rfl
  | cons a l ih =>
    simp only [List.map_cons, List.find?_cons, hf]
    cases hh : (a.handle == h) with
    | true => simp
    | false => simpa using ih

theorem find?_handle_filter (l : List Entry) (h h' : Nat) (hne : h' ≠ h) :
    (l.filter (fun e => e.handle != h')).find? (fun e => e.handle == h) =
      l.find? (fun e => e.handle == h) := by
  induction l with
  | nil => rfl
  | cons a l ih =>
    by_cases ha : a.handle = h'
    · have h1 : (a.handle != h') = false := by simp [ha]
      have h2 : (a.handle == h) = false := by simp [ha, hne]
      simp [List.filter_cons, h1, List.find?_cons, h2, ih]
    · have h1 : (a.handle != h') = true := by simp [ha]
      simp only [List.filter_cons, h1, if_true, List.find?_cons, ih]

theorem find?_handle_filter_none (l : List Entry) (h h' : Nat)
    (hn : l.find? (fun e => e.handle == h) = none) :
    (l.filter (fun e => e.handle != h')).find? (fun e => e.handle == h) = none := by
  rw [List.find?_eq_none] at hn ⊢
  intro x hx
  exact hn x (List.mem_filter.mp hx).1

theorem entry?_handle (s : Server) (h : Nat) (e : Entry) (he : s.entry? h = some e) :
    e.handle = h := by
  have := List.find?_some he
  simpa using this

theorem entry?_map (s : Server) (f : Entry → Entry) (hf : ∀ e, (f e).handle = e.handle)
    (h : Nat) (e : Entry) (he : s.entry? h = some e) (written : List (Nat × Event)) :
    Server.entry? { s with entries := s.entries.map f, written := written } h = some (f e) := by
  unfold Server.entry? at he ⊢
  simp only []
  rw [find?_handle_map _ _ hf, he]
  rfl

theorem entry?_map_none (s : Server) (f : Entry → Entry) (hf : ∀ e, (f e).handle = e.handle)
    (h : Nat) (he : s.entry? h = none) (written : List (Nat × Event)) :
    Server.entry? { s with entries := s.entries.map f, written := written } h = none := by
  unfold Server.entry? at he ⊢
  simp only []
  rw [find?_handle_map _ _ hf, he]
  rfl

theorem entry?_Unregister (s : Server) (h h' : Nat) (hne : h' ≠ h) :
    (Unregister s h').entry? h = s.entry? h := by
  unfold Server.entry? Unregister
  exact find?_handle_filter _ _ _ hne

theorem messageStream_written (s : Server) (h h' : Nat) (ev : Event) (entries : List Entry) :
    messageStream { s with entries := entries, written := s.written ++ [(h', ev)] } h =
      messageStream s h ++ (if h' = h then [ev] else []) := by
  unfold messageStream
  by_cases hh : h' = h <;> simp [List.filterMap_append, hh]

/-- One step that keeps the subscription of `h` open and finds room in its queue: the events
written to `h` followed by those still queued grow by exactly what the step publishes to the
filter. -/
theorem step_delivery (s : Server) (h : Nat) (e : Entry) (op : Op V)
    (hlive : s.stopped = false) (hreg : s.entry? h = some e)
    (halive : keepsAlive h [op] = true)
    (hroom : offers encode e.filter op = true → e.queue.length < s.capacity) :
    (step encode s op).stopped = false ∧ (step encode s op).capacity = s.capacity ∧
    ∃ e', (step encode s op).entry? h = some e' ∧ e'.filter = e.filter ∧
      e'.queue.length = queueAfter encode e.filter h e.queue.length op ∧
      messageStream (step encode s op) h ++ e'.queue =
        messageStream s h ++ e.queue ++ publishedTo encode e.filter [op] := by
  have hh := entry?_handle s h e hreg
  cases op with
  | subscribe req =>
    by_cases ha : routeAccepts s.routePrefix req.path = true
    · simp only [step, handleSubscription_accept s req hlive ha]
      refine ⟨hlive, trivial, e, ?_, rfl, rfl, by simp [publishedTo, messageStream]⟩
      unfold Server.entry? at hreg ⊢
      simp [List.find?_append, hreg]
    · simp only [step, handleSubscription_reject s req hlive (by simpa using ha)]
      exact ⟨hlive, trivial, e, hreg, rfl, rfl, by simp [publishedTo, messageStream]⟩
  | publish topic value =>
    cases hv : encode value with
    | none =>
      rw [step_publish_fail encode s topic value hv]
      exact ⟨hlive, rfl, e, hreg, rfl, by simp [queueAfter, offers, hv],
        by simp [publishedTo, hv]⟩
    | some payload =>
      rw [step_publish_ok encode s topic value payload hlive hv]
      refine ⟨hlive, rfl, _,
        entry?_map s _ (publish_map_handle s.capacity topic ⟨topic, payload⟩) h e hreg
          s.written, ?_, ?_, ?_⟩
      · split
        · exact offer_filter _ _ _
        · rfl
      · by_cases hm : covers e.filter topic = true
        · have hr := hroom (by simp [offers, hv, hm])
          simp [hm, offer_room _ _ _ hr, queueAfter, offers, hv]
        · simp [hm, queueAfter, offers, hv]
      · by_cases hm : covers e.filter topic = true
        · have hr := hroom (by simp [offers, hv, hm])
          simp [publishedTo, hv, hm, messageStream, offer_room _ _ _ hr]
        · simp [publishedTo, hv, hm, messageStream]
  | drain h' writeOk =>
    simp only [keepsAlive, Bool.and_true, Bool.or_eq_true, bne_iff_ne, ne_eq] at halive
    simp only [step]
    cases he2 : s.entry? h' with
    | none =>
      rw [Drain_none s h' writeOk he2]
      refine ⟨hlive, rfl, e, hreg, rfl, ?_, by simp [publishedTo]⟩
      have hne : h' ≠ h := by
        intro heq; rw [heq, hreg] at he2; cases he2
      simp [queueAfter, hne]
    | some e2 =>
      cases hq : e2.queue with
      | nil =>
        rw [Drain_empty s h' writeOk e2 he2 hq]
        refine ⟨hlive, rfl, e, hreg, rfl, ?_, by simp [publishedTo]⟩
        by_cases hhh : h' = h
        · subst hhh
          rw [hreg] at he2
          cases he2
          simp [queueAfter, hq]
        · simp [queueAfter, hhh]
      | cons ev rest =>
        cases writeOk with
        | true =>
          rw [Drain_ok s h' e2 ev rest he2 hq]
          refine ⟨hlive, rfl, _, entry?_map s _ (drain_map_handle h' rest) h e hreg _,
            ?_, ?_, ?_⟩
          · split <;> rfl
          · by_cases hhh : h' = h
            · subst hhh
              rw [hreg] at he2
              cases he2
              simp [hh, hq, queueAfter]
            · have : (e.handle == h') = false := by simp [hh, Ne.symm hhh]
              simp [this, hhh, queueAfter]
          · rw [messageStream_written]
            by_cases hhh : h' = h
            · subst hhh
              rw [hreg] at he2
              cases he2
              simp [hh, hq, publishedTo]
            · have : (e.handle == h') = false := by simp [hh, Ne.symm hhh]
              simp [this, hhh, publishedTo]
        | false =>
          have hne : ¬ h' = h := by
            rcases halive with h1 | h1
            · exact h1
            · exact absurd h1 (by decide)
          rw [Drain_fail s h' e2 ev rest he2 hq]
          refine ⟨hlive, rfl, e, ?_, rfl, by simp [queueAfter],
            by simp [publishedTo, Unregister, messageStream]⟩
          rw [entry?_Unregister s h h' hne]
          exact hreg
  | disconnect h' =>
    simp only [keepsAlive, Bool.and_true, bne_iff_ne, ne_eq] at halive
    refine ⟨hlive, rfl, e, ?_, rfl, rfl,
      by simp [publishedTo, step, Unregister, messageStream]⟩
    simp only [step]
    rw [entry?_Unregister s h h' halive]
    exact hreg
  | stop => simp [keepsAlive] at halive

end machine


section traces

variable {V : Type} (encode : V → Option Bytes)

theorem publishedTo_cons (filter : String) (op : Op V) (ops : List (Op V)) :
    publishedTo encode filter (op :: ops) =
      publishedTo encode filter [op] ++ publishedTo encode filter ops := by
  cases op with
  | publish topic value =>
    simp only [publishedTo]
    cases encode value with
    | none => rfl
    | some payload => by_cases hm : covers filter topic = true <;> simp [hm]
  | subscribe req => rfl
  | drain h writeOk => rfl
  | disconnect h => rfl
  | stop => rfl

theorem keepsAlive_cons (h : Nat) (op : Op V) (ops : List (Op V)) :
    keepsAlive h (op :: ops) = (keepsAlive h [op] && keepsAlive h ops) := by
  cases op <;> simp [keepsAlive]

theorem queueLength_cons (filter : String) (h n : Nat) (op : Op V) (ops : List (Op V)) :
    queueLength encode filter h n (op :: ops) =
      queueLength encode filter h (queueAfter encode filter h n op) ops := rfl

/-- Over steps that keep the subscription of `h` open and with which its drain task keeps
up, the events written to `h` followed by those still queued grow by exactly the events
published to its filter, in publish order. -/
theorem run_delivery (ops : List (Op V)) (s : Server) (h : Nat) (e : Entry)
    (hlive : s.stopped = false) (hreg : s.entry? h = some e)
    (halive : keepsAlive h ops = true)
    (hup : keepsUp s.capacity encode e.filter h e.queue.length ops = true) :
    (run encode s ops).stopped = false ∧ (run encode s ops).capacity = s.capacity ∧
    ∃ e', (run encode s ops).entry? h = some e' ∧ e'.filter = e.filter ∧
      e'.queue.length = queueLength encode e.filter h e.queue.length ops ∧
      messageStream (run encode s ops) h ++ e'.queue =
        messageStream s h ++ e.queue ++ publishedTo encode e.filter ops := by
  induction ops generalizing s e with
  | nil => exact ⟨hlive, rfl, e, hreg, rfl, rfl, by simp [run_nil, publishedTo]⟩
  | cons op ops ih =>
    rw [keepsAlive_cons, Bool.and_eq_true] at halive
    simp only [keepsUp, Bool.and_eq_true, Bool.or_eq_true, Bool.not_eq_true',
      decide_eq_true_eq] at hup
    have hroom : offers encode e.filter op = true → e.queue.length < s.capacity := by
      intro ho
      rcases hup.1 with h1 | h1
      · rw [ho] at h1; cases h1
      · exact h1
    obtain ⟨hlive1, hcap1, e1, hreg1, hf1, hlen1, hm1⟩ :=
      step_delivery encode s h e op hlive hreg halive.1 hroom
    have hup1 : keepsUp (step encode s op).capacity encode e1.filter h e1.queue.length ops
        = true := by
      rw [hcap1, hf1, hlen1]; exact hup.2
    obtain ⟨hlive2, hcap2, e2, hreg2, hf2, hlen2, hm2⟩ :=
      ih (step encode s op) e1 hlive1 hreg1 halive.2 hup1
    refine ⟨by rw [run_cons]; exact hlive2, by rw [run_cons, hcap2, hcap1], e2,
      by rw [run_cons]; exact hreg2, hf2.trans hf1, ?_, ?_⟩
    · rw [hlen2, hf1, hlen1, queueLength_cons]
    · rw [run_cons, hm2, hm1, publishedTo_cons encode e.filter op ops, hf1]
      simp [List.append_assoc]

/-- One step that keeps the subscription of `h` open, whether or not its queue has room: the
events written to `h` followed by those still queued grow by the event the step publishes to
the filter, or by nothing. -/
theorem step_sublist (s : Server) (h : Nat) (e : Entry) (op : Op V)
    (hlive : s.stopped = false) (hreg : s.entry? h = some e)
    (halive : keepsAlive h [op] = true) :
    (step encode s op).stopped = false ∧
    ∃ e' added, (step encode s op).entry? h = some e' ∧ e'.filter = e.filter ∧
      messageStream (step encode s op) h ++ e'.queue = messageStream s h ++ e.queue ++ added ∧
      added.Sublist (publishedTo encode e.filter [op]) := by
  by_cases hroom : offers encode e.filter op = true → e.queue.length < s.capacity
  · obtain ⟨h1, _, e', h2, h3, _, h4⟩ :=
      step_delivery encode s h e op hlive hreg halive hroom
    exact ⟨h1, e', _, h2, h3, h4, List.Sublist.refl _⟩
  · rw [Classical.not_imp] at hroom
    obtain ⟨hoff, hfull⟩ := hroom
    cases op with
    | publish topic value =>
      simp only [offers, Bool.and_eq_true] at hoff
      obtain ⟨payload, hv⟩ := Option.isSome_iff_exists.mp hoff.1
      rw [step_publish_ok encode s topic value payload hlive hv]
      refine ⟨hlive, _, [],
        entry?_map s _ (publish_map_handle s.capacity topic ⟨topic, payload⟩) h e hreg
          s.written, ?_, ?_, List.nil_sublist _⟩
      · simp [hoff.2, offer_filter]
      · simp [hoff.2, Entry.offer, hfull, messageStream]
    | subscribe req => simp [offers] at hoff
    | drain h' writeOk => simp [offers] at hoff
    | disconnect h' => simp [offers] at hoff
    | stop => simp [offers] at hoff

/-- Over steps that keep the subscription of `h` open, the events written to `h` followed by
those still queued grow by events published to its filter, in publish order and none
twice. -/
theorem run_sublist (ops : List (Op V)) (s : Server) (h : Nat) (e : Entry)
    (hlive : s.stopped = false) (hreg : s.entry? h = some e)
    (halive : keepsAlive h ops = true) :
    ∃ e' added, (run encode s ops).entry? h = some e' ∧ e'.filter = e.filter ∧
      messageStream (run encode s ops) h ++ e'.queue = messageStream s h ++ e.queue ++ added ∧
      added.Sublist (publishedTo encode e.filter ops) := by
  induction ops generalizing s e with
  | nil => exact ⟨e, [], hreg, rfl, by simp [run_nil], List.nil_sublist _⟩
  | cons op ops ih =>
    rw [keepsAlive_cons, Bool.and_eq_true] at halive
    obtain ⟨hlive1, e1, a1, hreg1, hf1, hm1, hs1⟩ :=
      step_sublist encode s h e op hlive hreg halive.1
    obtain ⟨e2, a2, hreg2, hf2, hm2, hs2⟩ := ih (step encode s op) e1 hlive1 hreg1 halive.2
    refine ⟨e2, a1 ++ a2, by rw [run_cons]; exact hreg2, hf2.trans hf1, ?_, ?_⟩
    · rw [run_cons, hm2, hm1]; simp [List.append_assoc]
    · rw [publishedTo_cons encode e.filter op ops]
      rw [hf1] at hs2
      exact List.Sublist.append hs1 hs2

/-- Enough successful writes of the drain task deliver the whole queue. -/
theorem drain_all (n : Nat) (s : Server) (h : Nat) (e : Entry)
    (hreg : s.entry? h = some e) (hn : e.queue.length = n) :
    ∃ e', (run encode s (List.replicate n (Op.drain h true))).entry? h = some e' ∧
      e'.filter = e.filter ∧ e'.queue = [] ∧
      messageStream (run encode s (List.replicate n (Op.drain h true))) h =
        messageStream s h ++ e.queue := by
  induction n generalizing s e with
  | zero =>
    have hq : e.queue = [] := List.length_eq_zero.mp hn
    exact ⟨e, hreg, rfl, hq, by simp [run_nil, hq]⟩
  | succ n ih =>
    have hh := entry?_handle s h e hreg
    cases hq : e.queue with
    | nil => simp [hq] at hn
    | cons ev rest =>
      have hstep : step encode s (Op.drain h true) = _ := Drain_ok s h e ev rest hreg hq
      have hreg1 := entry?_map s (fun e' => if e'.handle == h then { e' with queue := rest }
        else e') (drain_map_handle h rest) h e hreg (s.written ++ [(h, ev)])
      rw [← hstep] at hreg1
      have hlen : (if (e.handle == h) = true then { e with queue := rest } else e).queue.length
          = n := by
        simp [hh]
        simpa [hq] using hn
      obtain ⟨e', h1, h2, h3, h4⟩ := ih _ _ hreg1 hlen
      refine ⟨e', by rw [List.replicate_succ, run_cons]; exact h1, ?_, h3, ?_⟩
      · rw [h2]; simp [hh]
      · rw [List.replicate_succ, run_cons, h4, hstep, messageStream_written]
        simp [hh]

/-! ### Handles in use -/

theorem WF_listen (capacity : Nat) (routePrefix : Option String) :
    (ListenAndServeOnSocket capacity routePrefix).WF := by
  simp [Server.WF, ListenAndServeOnSocket]

theorem WF_step (s : Server) (op : Op V) (hwf : s.WF) : (step encode s op).WF := by
  obtain ⟨h1, h2, h3⟩ := hwf
  cases op with
  | subscribe req =>
    simp only [step]
    cases hs : s.stopped with
    | true => rw [handleSubscription_stopped s req hs]; exact ⟨h1, h2, h3⟩
    | false =>
      cases ha : routeAccepts s.routePrefix req.path with
      | true =>
        rw [handleSubscription_accept s req hs ha]
        refine ⟨?_, ?_, ?_⟩
        · intro e he
          rcases List.mem_append.mp he with he | he
          · exact Nat.lt_succ_of_lt (h1 e he)
          · simp at he; subst he; exact Nat.lt_succ_self _
        · intro r hr
          rcases List.mem_append.mp hr with hr | hr
          · exact Nat.lt_succ_of_lt (h2 r hr)
          · simp at hr; subst hr; exact Nat.lt_succ_self _
        · intro w hw; exact Nat.lt_succ_of_lt (h3 w hw)
      | false =>
        rw [handleSubscription_reject s req hs ha]
        refine ⟨?_, ?_, ?_⟩
        · intro e he; exact Nat.lt_succ_of_lt (h1 e he)
        · intro r hr
          rcases List.mem_append.mp hr with hr | hr
          · exact Nat.lt_succ_of_lt (h2 r hr)
          · simp at hr; subst hr; exact Nat.lt_succ_self _
        · intro w hw; exact Nat.lt_succ_of_lt (h3 w hw)
  | publish topic value =>
    cases hs : s.stopped with
    | true => rw [step_publish_stopped encode s topic value hs]; exact ⟨h1, h2, h3⟩
    | false =>
      cases hv : encode value with
      | none => rw [step_publish_fail encode s topic value hv]; exact ⟨h1, h2, h3⟩
      | some payload =>
        rw [step_publish_ok encode s topic value payload hs hv]
        refine ⟨?_, h2, h3⟩
        intro e he
        obtain ⟨e0, he0, rfl⟩ := List.mem_map.mp he
        rw [publish_map_handle]
        exact h1 e0 he0
  | drain h writeOk =>
    simp only [step]
    cases he : s.entry? h with
    | none => rw [Drain_none s h writeOk he]; exact ⟨h1, h2, h3⟩
    | some e =>
      have hh := entry?_handle s h e he
      have hmem : e ∈ s.entries := List.mem_of_find?_eq_some he
      cases hq : e.queue with
      | nil => rw [Drain_empty s h writeOk e he hq]; exact ⟨h1, h2, h3⟩
      | cons ev rest =>
        cases writeOk with
        | true =>
          rw [Drain_ok s h e ev rest he hq]
          refine ⟨?_, h2, ?_⟩
          · intro e' he'
            obtain ⟨e0, he0, rfl⟩ := List.mem_map.mp he'
            rw [drain_map_handle]
            exact h1 e0 he0
          · intro w hw
            rcases List.mem_append.mp hw with hw | hw
            · exact h3 w hw
            · simp at hw; subst hw; simpa [hh] using h1 e hmem
        | false =>
          rw [Drain_fail s h e ev rest he hq]
          exact ⟨fun e' he' => h1 e' (List.mem_filter.mp he').1, h2, h3⟩
  | disconnect h =>
    exact ⟨fun e' he' => h1 e' (List.mem_filter.mp he').1, h2, h3⟩
  | stop =>
    exact ⟨by simp [step, Stop], h2, h3⟩

theorem WF_run (ops : List (Op V)) (s : Server) (hwf : s.WF) : (run encode s ops).WF := by
  induction ops generalizing s with
  | nil => exact hwf
  | cons op ops ih => exact ih _ (WF_step encode s op hwf)

/-- The route prefix and the queue capacity are fixed for the server's lifetime. -/
theorem config_step (s : Server) (op : Op V) :
    (step encode s op).routePrefix = s.routePrefix ∧
    (step encode s op).capacity = s.capacity := by
  cases op with
  | subscribe req =>
    simp only [step]
    cases hs : s.stopped with
    | true => rw [handleSubscription_stopped s req hs]; exact ⟨rfl, rfl⟩
    | false =>
      cases ha : routeAccepts s.routePrefix req.path with
      | true => rw [handleSubscription_accept s req hs ha]; exact ⟨rfl, rfl⟩
      | false => rw [handleSubscription_reject s req hs ha]; exact ⟨rfl, rfl⟩
  | publish topic value =>
    cases hs : s.stopped with
    | true => rw [step_publish_stopped encode s topic value hs]; exact ⟨rfl, rfl⟩
    | false =>
      cases hv : encode value with
      | none => rw [step_publish_fail encode s topic value hv]; exact ⟨rfl, rfl⟩
      | some payload =>
        rw [step_publish_ok encode s topic value payload hs hv]; exact ⟨rfl, rfl⟩
  | drain h writeOk =>
    simp only [step]
    cases he : s.entry? h with
    | none => rw [Drain_none s h writeOk he]; exact ⟨rfl, rfl⟩
    | some e =>
      cases hq : e.queue with
      | nil => rw [Drain_empty s h writeOk e he hq]; exact ⟨rfl, rfl⟩
      | cons ev rest =>
        cases writeOk with
        | true => rw [Drain_ok s h e ev rest he hq]; exact ⟨rfl, rfl⟩
        | false => rw [Drain_fail s h e ev rest he hq]; exact ⟨rfl, rfl⟩
  | disconnect h => exact ⟨rfl, rfl⟩
  | stop => exact ⟨rfl, rfl⟩

theorem config_run (ops : List (Op V)) (s : Server) :
    (run encode s ops).routePrefix = s.routePrefix ∧
    (run encode s ops).capacity = s.capacity := by
  induction ops generalizing s with
  | nil => exact ⟨rfl, rfl⟩
  | cons op ops ih =>
    obtain ⟨h1, h2⟩ := ih (step encode s op)
    obtain ⟨h3, h4⟩ := config_step encode s op
    exact ⟨by rw [run_cons, h1, h3], by rw [run_cons, h2, h4]⟩

end traces

section connections

variable {V : Type} (encode : V → Option Bytes)

theorem errorStream_responses (s : Server) (c h : Nat) (r : Response) (hne : h ≠ c)
    (n : Nat) (entries : List Entry) :
    errorStream { s with nextHandle := n, entries := entries,
                         responses := s.responses ++ [(h, r)] } c = errorStream s c := by
  simp [errorStream, List.filterMap_append, hne]

/-- A step leaves alone a connection that was answered earlier: its error stream is as it
was, and if it has no registry entry it gets none and nothing is written to it. -/
theorem older_step (s : Server) (c : Nat) (op : Op V) (hc : c < s.nextHandle) :
    c < (step encode s op).nextHandle ∧
    errorStream (step encode s op) c = errorStream s c ∧
    (s.entry? c = none →
      (step encode s op).entry? c = none ∧
      messageStream (step encode s op) c = messageStream s c) := by
  cases op with
  | subscribe req =>
    simp only [step]
    cases hs : s.stopped with
    | true => rw [handleSubscription_stopped s req hs]; exact ⟨hc, rfl, fun h => ⟨h, rfl⟩⟩
    | false =>
      have hne : s.nextHandle ≠ c := Nat.ne_of_gt hc
      cases ha : routeAccepts s.routePrefix req.path with
      | true =>
        rw [handleSubscription_accept s req hs ha]
        refine ⟨Nat.lt_succ_of_lt hc, errorStream_responses s c _ _ hne _ _, ?_⟩
        intro hnone
        refine ⟨?_, rfl⟩
        unfold Server.entry? at hnone ⊢
        simp [List.find?_append, hnone, hne]
      | false =>
        rw [handleSubscription_reject s req hs ha]
        exact ⟨Nat.lt_succ_of_lt hc, errorStream_responses s c _ _ hne _ _,
          fun hnone => ⟨hnone, rfl⟩⟩
  | publish topic value =>
    cases hs : s.stopped with
    | true =>
      rw [step_publish_stopped encode s topic value hs]; exact ⟨hc, rfl, fun h => ⟨h, rfl⟩⟩
    | false =>
      cases hv : encode value with
      | none =>
        rw [step_publish_fail encode s topic value hv]; exact ⟨hc, rfl, fun h => ⟨h, rfl⟩⟩
      | some payload =>
        rw [step_publish_ok encode s topic value payload hs hv]
        exact ⟨hc, rfl, fun hnone =>
          ⟨entry?_map_none s _ (publish_map_handle _ _ _) c hnone s.written, rfl⟩⟩
  | drain h writeOk =>
    simp only [step]
    cases he : s.entry? h with
    | none => rw [Drain_none s h writeOk he]; exact ⟨hc, rfl, fun h => ⟨h, rfl⟩⟩
    | some e =>
      cases hq : e.queue with
      | nil => rw [Drain_empty s h writeOk e he hq]; exact ⟨hc, rfl, fun h => ⟨h, rfl⟩⟩
      | cons ev rest =>
        cases writeOk with
        | true =>
          rw [Drain_ok s h e ev rest he hq]
          refine ⟨hc, rfl, fun hnone =>
            ⟨entry?_map_none s _ (drain_map_handle h rest) c hnone _, ?_⟩⟩
          have hne : h ≠ c := by
            intro heq; rw [heq, hnone] at he; cases he
          rw [messageStream_written]
          simp [hne]
        | false =>
          rw [Drain_fail s h e ev rest he hq]
          exact ⟨hc, rfl, fun hnone => ⟨find?_handle_filter_none _ _ _ hnone, rfl⟩⟩
  | disconnect h =>
    exact ⟨hc, rfl, fun hnone => ⟨find?_handle_filter_none _ _ _ hnone, rfl⟩⟩
  | stop =>
    exact ⟨hc, rfl, fun _ => ⟨rfl, rfl⟩⟩

theorem older_run (ops : List (Op V)) (s : Server) (c : Nat) (hc : c < s.nextHandle) :
    c < (run encode s ops).nextHandle ∧
    errorStream (run encode s ops) c = errorStream s c ∧
    (s.entry? c = none →
      (run encode s ops).entry? c = none ∧
      messageStream (run encode s ops) c = messageStream s c) := by
  induction ops generalizing s with
  | nil => exact ⟨hc, rfl, fun h => ⟨h, rfl⟩⟩
  | cons op ops ih =>
    obtain ⟨h1, h2, h3⟩ := older_step encode s c op hc
    obtain ⟨k1, k2, k3⟩ := ih (step encode s op) h1
    refine ⟨k1, k2.trans h2, fun hnone => ?_⟩
    obtain ⟨h4, h5⟩ := h3 hnone
    obtain ⟨k4, k5⟩ := k3 h4
    exact ⟨k4, k5.trans h5⟩

/-- In a broker whose handles in use are below the next handle, the next handle is unused:
it has no registry entry, no message and no error. -/
theorem fresh_handle (s : Server) (hwf : s.WF) :
    s.entry? s.nextHandle = none ∧ messageStream s s.nextHandle = [] ∧
    errorStream s s.nextHandle = [] := by
  obtain ⟨h1, h2, h3⟩ := hwf
  refine ⟨?_, ?_, ?_⟩
  · unfold Server.entry?
    rw [List.find?_eq_none]
    intro e he
    simpa using Nat.ne_of_lt (h1 e he)
  · unfold messageStream
    rw [List.filterMap_eq_nil_iff]
    intro w hw
    simp [Nat.ne_of_lt (h3 w hw)]
  · unfold errorStream
    rw [List.filterMap_eq_nil_iff]
    intro r hr
    simp [Nat.ne_of_lt (h2 r hr)]

theorem decodeAll_publishedTo (decode : Bytes → Option V)
    (hcodec : ∀ v b, encode v = some b → decode b = some v) (filter : String)
    (ops : List (Op V)) :
    decodeAll decode (publishedTo encode filter ops) =
      (publishedValues encode filter ops).map some := by
  induction ops with
  | nil => rfl
  | cons op ops ih =>
    cases op with
    | publish topic value =>
      simp only [publishedTo, publishedValues]
      cases hv : encode value with
      | none => simpa using ih
      | some payload =>
        by_cases hm : covers filter topic = true
        · simp only [hm, if_true, Option.isSome_some, Bool.and_self, List.map_cons]
          unfold decodeAll at ih ⊢
          rw [List.map_cons, ih, hcodec value payload hv]
        · simpa [hm] using ih
    | subscribe req => exact ih
    | drain h writeOk => exact ih
    | disconnect h => exact ih
    | stop => exact ih

end connections


section subscriptions

variable {V : Type} (encode : V → Option Bytes)

/-- A subscription accepted by a broker reached from `ListenAndServeOnSocket` is registered
under the next handle with the filter of the request and an empty queue; nothing has been
written to it and it has no error. -/
theorem subscription_accepted (capacity : Nat) (routePrefix : Option String)
    (pre : List (Op V)) (req : Request) (s0 : Server)
    (hs0 : s0 = run encode (ListenAndServeOnSocket capacity routePrefix) pre)
    (hlive : s0.stopped = false) (hacc : routeAccepts routePrefix req.path = true) :
    Snapshot (handleSubscription s0 req) =
      Snapshot s0 ++ [⟨s0.nextHandle, resolveFilter routePrefix req, []⟩] ∧
    (handleSubscription s0 req).stopped = false ∧
    (handleSubscription s0 req).capacity = capacity ∧
    s0.nextHandle < (handleSubscription s0 req).nextHandle ∧
    (handleSubscription s0 req).entry? s0.nextHandle =
      some ⟨s0.nextHandle, resolveFilter routePrefix req, []⟩ ∧
    messageStream (handleSubscription s0 req) s0.nextHandle = [] ∧
    errorStream (handleSubscription s0 req) s0.nextHandle = [] := by
  have hwf : s0.WF := by rw [hs0]; exact WF_run encode pre _ (WF_listen capacity routePrefix)
  have hrp : s0.routePrefix = routePrefix := by rw [hs0]; exact (config_run encode pre _).1
  have hcap : s0.capacity = capacity := by rw [hs0]; exact (config_run encode pre _).2
  obtain ⟨hf1, hf2, hf3⟩ := fresh_handle s0 hwf
  have hsub := handleSubscription_accept s0 req hlive (by rw [hrp]; exact hacc)
  rw [hrp] at hsub
  rw [hsub]
  refine ⟨rfl, hlive, hcap, Nat.lt_succ_self _, ?_, hf2, ?_⟩
  · unfold Server.entry? at hf1 ⊢
    simp [List.find?_append, hf1]
  · unfold errorStream at hf3 ⊢
    simp only []
    rw [List.filterMap_append, hf3]
    simp

/-- An accepted subscription that is kept open and whose drain task keeps up: the written
and the queued events are the published ones, and draining the queue delivers them all; the
error stream stays empty. -/
theorem subscriber_delivery (capacity : Nat) (routePrefix : Option String)
    (pre : List (Op V)) (req : Request) (ops : List (Op V)) (s0 : Server)
    (hs0 : s0 = run encode (ListenAndServeOnSocket capacity routePrefix) pre)
    (hlive : s0.stopped = false) (hacc : routeAccepts routePrefix req.path = true)
    (halive : keepsAlive s0.nextHandle ops = true)
    (hup : keepsUp capacity encode (resolveFilter routePrefix req) s0.nextHandle 0 ops
      = true) :
    errorStream (run encode (handleSubscription s0 req) ops) s0.nextHandle = [] ∧
    ∃ e', (run encode (handleSubscription s0 req) ops).entry? s0.nextHandle = some e' ∧
      e'.filter = resolveFilter routePrefix req ∧
      e'.queue.length =
        queueLength encode (resolveFilter routePrefix req) s0.nextHandle 0 ops ∧
      messageStream (run encode (handleSubscription s0 req) ops) s0.nextHandle ++ e'.queue =
        publishedTo encode (resolveFilter routePrefix req) ops ∧
      messageStream (run encode (run encode (handleSubscription s0 req) ops)
          (List.replicate e'.queue.length (Op.drain s0.nextHandle true))) s0.nextHandle =
        publishedTo encode (resolveFilter routePrefix req) ops := by
  obtain ⟨_, hlive1, hcap1, hlt, hreg, hms, hes⟩ :=
    subscription_accepted encode capacity routePrefix pre req s0 hs0 hlive hacc
  obtain ⟨_, _, e', he', hfil, hlen, hsum⟩ :=
    run_delivery encode ops _ s0.nextHandle _ hlive1 hreg halive
      (by rw [hcap1]; exact hup)
  refine ⟨?_, e', he', hfil, hlen, ?_, ?_⟩
  · rw [(older_run encode ops _ s0.nextHandle hlt).2.1, hes]
  · rw [hsum, hms]; simp
  · obtain ⟨_, _, _, _, hall⟩ := drain_all encode e'.queue.length _ s0.nextHandle e' he' rfl
    rw [hall, hsum, hms]; simp

/-! ### The ticks of the test -/

end subscriptions


/-- C2, as stated, fails for a subscriber that does not keep up: on a broker whose queues hold
one event, the subscriber on `local` stays registered while the ticks 1 and 2 are published
on `local/time/tick` before its drain task writes; both `Publish` calls are for its filter,
and once its queue is drained it has decoded the value 1 only. -/
theorem ordering_stated_fails :
    keepsAlive 0 [Op.publish "local/time/tick" 1, Op.publish "local/time/tick" 2,
      Op.drain 0 true, Op.drain 0 true] = true ∧
    (run unaryEncode (handleSubscription (ListenAndServeOnSocket 1 none) ⟨"/local", none⟩)
      [Op.publish "local/time/tick" 1, Op.publish "local/time/tick" 2,
       Op.drain 0 true, Op.drain 0 true]).entry? 0 = some ⟨0, "/local", []⟩ ∧
    publishedValues unaryEncode "/local"
      [Op.publish "local/time/tick" 1, Op.publish "local/time/tick" 2,
       Op.drain 0 true, Op.drain 0 true] = [1, 2] ∧
    decodeAll unaryDecode (messageStream
      (run unaryEncode (handleSubscription (ListenAndServeOnSocket 1 none) ⟨"/local", none⟩)
        [Op.publish "local/time/tick" 1, Op.publish "local/time/tick" 2,
         Op.drain 0 true, Op.drain 0 true]) 0) = [some 1] := by
  decide

/-- C2, amended: a subscriber registered with filter `F` and kept registered over a sequence
of steps has been written, followed by what is still queued for it, events published to the
topics `F` matches, in publish order and none twice, and these decode to the published
values; when its queue has room at every such `Publish` call none is lost: the written and
the queued events are exactly the published ones, and once the queue is drained, which enough
writes of its drain task achieve, the values it decodes are the published values restricted
to those topics. -/
theorem per_subscriber_ordering {V : Type} (encode : V → Option Bytes)
    (decode : Bytes → Option V) (hcodec : ∀ v b, encode v = some b → decode b = some v)
    (capacity : Nat) (routePrefix : Option String) (pre : List (Op V)) (req : Request)
    (ops : List (Op V)) (s0 : Server)
    (hs0 : s0 = run encode (ListenAndServeOnSocket capacity routePrefix) pre)
    (hlive : s0.stopped = false) (hacc : routeAccepts routePrefix req.path = true)
    (halive : keepsAlive s0.nextHandle ops = true) :
    decodeAll decode (publishedTo encode (resolveFilter routePrefix req) ops) =
      (publishedValues encode (resolveFilter routePrefix req) ops).map some ∧
    ∃ e', (run encode (handleSubscription s0 req) ops).entry? s0.nextHandle = some e' ∧
      e'.filter = resolveFilter routePrefix req ∧
      (messageStream (run encode (handleSubscription s0 req) ops) s0.nextHandle ++
        e'.queue).Sublist (publishedTo encode (resolveFilter routePrefix req) ops) ∧
      (keepsUp capacity encode (resolveFilter routePrefix req) s0.nextHandle 0 ops = true →
        messageStream (run encode (handleSubscription s0 req) ops) s0.nextHandle ++
          e'.queue = publishedTo encode (resolveFilter routePrefix req) ops ∧
        (e'.queue = [] →
          decodeAll decode
              (messageStream (run encode (handleSubscription s0 req) ops) s0.nextHandle) =
            (publishedValues encode (resolveFilter routePrefix req) ops).map some) ∧
        decodeAll decode
            (messageStream (run encode (run encode (handleSubscription s0 req) ops)
              (List.replicate e'.queue.length (Op.drain s0.nextHandle true)))
              s0.nextHandle) =
          (publishedValues encode (resolveFilter routePrefix req) ops).map some) := by
  have hdec := decodeAll_publishedTo encode decode hcodec (resolveFilter routePrefix req) ops
  obtain ⟨_, hlive1, _, _, hreg, hms, _⟩ :=
    subscription_accepted encode capacity routePrefix pre req s0 hs0 hlive hacc
  obtain ⟨e', added, he', hfil, hsum, hsub⟩ :=
    run_sublist encode ops _ s0.nextHandle _ hlive1 hreg halive
  refine ⟨hdec, e', he', hfil, ?_, ?_⟩
  · rw [hsum, hms]
    simpa using hsub
  · intro hup
    obtain ⟨_, e2, he2, _, _, hall, hdrained⟩ :=
      subscriber_delivery encode capacity routePrefix pre req ops s0 hs0 hlive hacc halive hup
    rw [he'] at he2
    cases he2
    refine ⟨hall, ?_, ?_⟩
    · intro hq
      rw [hq, List.append_nil] at hall
      rw [hall]
      exact hdec
    · rw [hdrained]
      exact hdec

/-- C2, amended, at the subscriber on `local` of `TestBrokerMultiSubscribersEarlyDisconnects`,
on a broker whose queues hold one event: each tick is written before the next is published,
and after the ticks 1 to 10 on `local/time/tick` it has decoded exactly these ten values. -/
theorem per_subscriber_ordering_witness :
    ∃ e', (run unaryEncode (handleSubscription (ListenAndServeOnSocket 1 none)
        ⟨"/local", none⟩) (tickOps 0 1 10)).entry? 0 = some e' ∧
      e'.queue = [] ∧
      decodeAll unaryDecode (messageStream (run unaryEncode
          (handleSubscription (ListenAndServeOnSocket 1 none) ⟨"/local", none⟩)
          (tickOps 0 1 10)) 0) =
        [some 1, some 2, some 3, some 4, some 5, some 6, some 7, some 8, some 9, some 10] := by
  obtain ⟨_, e', he', _, _, hup⟩ := per_subscriber_ordering unaryEncode unaryDecode
    (fun v b h => by
      simp only [unaryEncode, Option.some.injEq] at h
      simp [unaryDecode, ← h])
    1 none [] ⟨"/local", none⟩ (tickOps 0 1 10) (ListenAndServeOnSocket 1 none) rfl rfl rfl
    (by decide)
  have hq : e'.queue = [] := by
    have h2 : (run unaryEncode (handleSubscription (ListenAndServeOnSocket 1 none)
        ⟨"/local", none⟩) (tickOps 0 1 10)).entry? 0 = some ⟨0, "/local", []⟩ := by decide
    have h3 := he'.symm.trans h2
    cases h3
    rfl
  exact ⟨e', he', hq, ((hup (by decide)).2.1 hq).trans (by decide)⟩

/-- C4: on a broker with route prefix `P`, a subscription request whose path does not begin
with `P` leaves the registry as it was and is answered not-found: whatever happens later, its
error stream holds that one error, its message stream is empty and it has no registry entry.
A request whose path begins with `P` is registered with its filter and an empty queue and
gets no error; while it stays registered and its queue has room for them, it is written, or
has queued, exactly the events published to the topics its filter matches, all of them
written once its queue is drained. -/
theorem route_isolation {V : Type} (encode : V → Option Bytes) (capacity : Nat) (P : String)
    (pre : List (Op V)) (req : Request) (s0 : Server)
    (hs0 : s0 = run encode (ListenAndServeOnSocket capacity (some P)) pre)
    (hlive : s0.stopped = false) :
    (hasPrefix req.path P = false →
      Snapshot (handleSubscription s0 req) = Snapshot s0 ∧
      ∀ ops : List (Op V),
        errorStream (run encode (handleSubscription s0 req) ops) s0.nextHandle =
          [Response.notFound] ∧
        messageStream (run encode (handleSubscription s0 req) ops) s0.nextHandle = [] ∧
        (run encode (handleSubscription s0 req) ops).entry? s0.nextHandle = none) ∧
    (hasPrefix req.path P = true →
      Snapshot (handleSubscription s0 req) =
        Snapshot s0 ++ [⟨s0.nextHandle, resolveFilter (some P) req, []⟩] ∧
      errorStream (handleSubscription s0 req) s0.nextHandle = [] ∧
      ∀ ops : List (Op V), keepsAlive s0.nextHandle ops = true →
        keepsUp capacity encode (resolveFilter (some P) req) s0.nextHandle 0 ops = true →
        errorStream (run encode (handleSubscription s0 req) ops) s0.nextHandle = [] ∧
        ∃ e', (run encode (handleSubscription s0 req) ops).entry? s0.nextHandle = some e' ∧
          messageStream (run encode (handleSubscription s0 req) ops) s0.nextHandle ++
              e'.queue = publishedTo encode (resolveFilter (some P) req) ops ∧
          messageStream (run encode (run encode (handleSubscription s0 req) ops)
              (List.replicate e'.queue.length (Op.drain s0.nextHandle true))) s0.nextHandle =
            publishedTo encode (resolveFilter (some P) req) ops) := by
  have hwf : s0.WF := by rw [hs0]; exact WF_run encode pre _ (WF_listen capacity (some P))
  have hrp : s0.routePrefix = some P := by rw [hs0]; exact (config_run encode pre _).1
  obtain ⟨hf1, hf2, hf3⟩ := fresh_handle s0 hwf
  constructor
  · intro hno
    have hsub := handleSubscription_reject s0 req hlive (by rw [hrp]; exact hno)
    refine ⟨by rw [hsub]; rfl, fun ops => ?_⟩
    have hlt : s0.nextHandle < (handleSubscription s0 req).nextHandle := by
      rw [hsub]; exact Nat.lt_succ_self _
    have hes : errorStream (handleSubscription s0 req) s0.nextHandle = [Response.notFound] := by
      rw [hsub]
      unfold errorStream at hf3 ⊢
      simp only []
      rw [List.filterMap_append, hf3]
      simp
    have hnone : (handleSubscription s0 req).entry? s0.nextHandle = none := by
      rw [hsub]; exact hf1
    have hms : messageStream (handleSubscription s0 req) s0.nextHandle = [] := by
      rw [hsub]; exact hf2
    obtain ⟨_, h2, h3⟩ := older_run encode ops _ s0.nextHandle hlt
    obtain ⟨h4, h5⟩ := h3 hnone
    exact ⟨h2.trans hes, h5.trans hms, h4⟩
  · intro hyes
    obtain ⟨hsnap, _, _, _, _, _, hes⟩ :=
      subscription_accepted encode capacity (some P) pre req s0 hs0 hlive hyes
    refine ⟨hsnap, hes, fun ops halive hup => ?_⟩
    obtain ⟨herr, e', he', _, _, hsum, hall⟩ :=
      subscriber_delivery encode capacity (some P) pre req ops s0 hs0 hlive hyes halive hup
    exact ⟨herr, e', he', hsum, hall⟩

/-- C4 at the requests of `TestBrokerMultiSubscriberCustomObjectConnectAtURLPrefix`, in the
path form of the address scheme, on a broker with route prefix `/events` whose queues hold
one event: the request for `/local` is answered not-found and stays silent; the request for
`/events/local/instance1` that follows it is registered and is written the event published
on `local/instance1`. -/
theorem route_isolation_witness :
    (Snapshot (handleSubscription (ListenAndServeOnSocket 1 (some "/events"))
          ⟨"/local", none⟩) = Snapshot (ListenAndServeOnSocket 1 (some "/events")) ∧
      ∀ ops : List (Op Nat),
        errorStream (run unaryEncode
          (handleSubscription (ListenAndServeOnSocket 1 (some "/events")) ⟨"/local", none⟩)
          ops) 0 = [Response.notFound] ∧
        messageStream (run unaryEncode
          (handleSubscription (ListenAndServeOnSocket 1 (some "/events")) ⟨"/local", none⟩)
          ops) 0 = [] ∧
        (run unaryEncode
          (handleSubscription (ListenAndServeOnSocket 1 (some "/events")) ⟨"/local", none⟩)
          ops).entry? 0 = none) ∧
    (errorStream (run unaryEncode (handleSubscription
          (run unaryEncode (ListenAndServeOnSocket 1 (some "/events"))
            [Op.subscribe ⟨"/local", none⟩]) ⟨"/events/local/instance1", none⟩)
          [Op.publish "local/instance1" 7, Op.drain 1 true]) 1 = [] ∧
      ∃ e', (run unaryEncode (handleSubscription
          (run unaryEncode (ListenAndServeOnSocket 1 (some "/events"))
            [Op.subscribe ⟨"/local", none⟩]) ⟨"/events/local/instance1", none⟩)
          [Op.publish "local/instance1" 7, Op.drain 1 true]).entry? 1 = some e' ∧
        messageStream (run unaryEncode (handleSubscription
            (run unaryEncode (ListenAndServeOnSocket 1 (some "/events"))
              [Op.subscribe ⟨"/local", none⟩]) ⟨"/events/local/instance1", none⟩)
            [Op.publish "local/instance1" 7, Op.drain 1 true]) 1 ++ e'.queue =
          [⟨"local/instance1", [0, 0, 0, 0, 0, 0, 0]⟩]) ∧
    messageStream (run unaryEncode (ListenAndServeOnSocket 1 (some "/events"))
        [Op.subscribe ⟨"/local", none⟩, Op.subscribe ⟨"/events/local/instance1", none⟩,
         Op.publish "local/instance1" 7, Op.drain 1 true, Op.drain 0 true]) 1 =
      [⟨"local/instance1", [0, 0, 0, 0, 0, 0, 0]⟩] := by
  refine ⟨(route_isolation unaryEncode 1 "/events" [] ⟨"/local", none⟩
      (ListenAndServeOnSocket 1 (some "/events")) rfl rfl).1 (by decide), ?_, by decide⟩
  obtain ⟨herr, e', he', hsum, _⟩ :=
    ((route_isolation unaryEncode 1 "/events" [Op.subscribe ⟨"/local", none⟩]
      ⟨"/events/local/instance1", none⟩
      (run unaryEncode (ListenAndServeOnSocket 1 (some "/events"))
        [Op.subscribe ⟨"/local", none⟩]) rfl rfl).2 (by decide)).2.2
      [Op.publish "local/instance1" 7, Op.drain 1 true] (by decide) (by decide)
  exact ⟨herr, e', he', hsum.trans (by decide)⟩

/-- C5, as stated, fails for a subscriber whose queue is full: on a broker whose queues hold
one event, a subscriber with the empty filter stays registered while `Publish` is called
twice on `x/y` before its drain task writes; both calls succeed and are for its filter, and
it receives one message, not two. -/
theorem empty_filter_stated_fails :
    keepsAlive 0 [Op.publish "x/y" 42, Op.publish "x/y" 43, Op.drain 0 true,
      Op.drain 0 true] = true ∧
    (run unaryEncode (handleSubscription (ListenAndServeOnSocket 1 none) ⟨"/", none⟩)
      [Op.publish "x/y" 42, Op.publish "x/y" 43, Op.drain 0 true,
       Op.drain 0 true]).entry? 0 = some ⟨0, "/", []⟩ ∧
    publishedValues unaryEncode "" [Op.publish "x/y" 42, Op.publish "x/y" 43,
      Op.drain 0 true, Op.drain 0 true] = [42, 43] ∧
    decodeAll unaryDecode (messageStream
      (run unaryEncode (handleSubscription (ListenAndServeOnSocket 1 none) ⟨"/", none⟩)
        [Op.publish "x/y" 42, Op.publish "x/y" 43, Op.drain 0 true, Op.drain 0 true]) 0) =
      [some 42] := by
  decide

/-- C5, amended: the empty filter matches every topic, read by its segments, whether or not
it starts with `/`; so each `Publish` call made while the queue of a subscriber with the
empty filter has room, whatever its topic, enqueues exactly one message for that subscriber,
and once the queue is drained that message has been written to it after the earlier ones. -/
theorem empty_filter_receives_all {V : Type} (encode : V → Option Bytes) :
    (∀ T : String, covers "" T = true ∧ Matches "" (canonical T) = true) ∧
    (∀ (s : Server) (h : Nat) (e : Entry) (topic : String) (value : V) (payload : Bytes),
      s.stopped = false → s.entry? h = some e → canonical e.filter = "" →
      encode value = some payload → e.queue.length < s.capacity →
      ∃ s' e', Publish encode s topic value = .ok s' ∧ s'.entry? h = some e' ∧
        e'.queue = e.queue ++ [⟨topic, payload⟩] ∧
        messageStream (run encode s' (List.replicate e'.queue.length (Op.drain h true))) h =
          messageStream s h ++ e.queue ++ [⟨topic, payload⟩]) := by
  have hc : canonical "" = "" := by decide
  have hall : ∀ T : String, covers "" T = true := covers_empty
  refine ⟨fun T => ⟨hall T, ?_⟩, ?_⟩
  · have := hall T
    unfold covers at this
    rwa [hc] at this
  intro s h e topic value payload hlive hreg hfil hv hroom
  have hcov : covers e.filter topic = true := by
    have := hall topic
    unfold covers at this ⊢
    rwa [hc, ← hfil] at this
  have hreg1 := entry?_map s (fun e => if covers e.filter topic then
      e.offer s.capacity ⟨topic, payload⟩ else e)
    (publish_map_handle s.capacity topic ⟨topic, payload⟩) h e hreg s.written
  simp only [hcov, if_true] at hreg1
  obtain ⟨e', he', _, _, hms⟩ := drain_all encode _ _ h _ hreg1 rfl
  refine ⟨_, _, Publish_ok encode s topic value payload hlive hv, hreg1,
    offer_room _ _ _ hroom, ?_⟩
  rw [hms, offer_room _ _ _ hroom]
  simp [messageStream]

/-- C5, amended, at the scenario of the specification, on a broker whose queues hold one
event: a subscriber with the empty filter, one `Publish("x/y", 42)`, and the stream yields
exactly one message, which decodes to `42`. -/
theorem empty_filter_receives_all_witness :
    (∃ s' e', Publish unaryEncode
          (handleSubscription (ListenAndServeOnSocket 1 none) ⟨"/", none⟩) "x/y" 42 = .ok s' ∧
        s'.entry? 0 = some e' ∧
        e'.queue = [] ++ [⟨"x/y", List.replicate 42 0⟩] ∧
        messageStream (run unaryEncode s' (List.replicate e'.queue.length (Op.drain 0 true)))
            0 =
          messageStream (handleSubscription (ListenAndServeOnSocket 1 none) ⟨"/", none⟩) 0 ++
            [] ++ [⟨"x/y", List.replicate 42 0⟩]) ∧
    decodeAll unaryDecode (messageStream (run unaryEncode (ListenAndServeOnSocket 1 none)
        [Op.subscribe ⟨"/", none⟩, Op.publish "x/y" 42, Op.drain 0 true]) 0) = [some 42] :=
  ⟨(empty_filter_receives_all unaryEncode).2
      (handleSubscription (ListenAndServeOnSocket 1 none) ⟨"/", none⟩) 0 ⟨0, "/", []⟩ "x/y" 42
      (List.replicate 42 0) rfl rfl (by decide) rfl (by decide),
    by decide⟩

end Broker
